import Mathlib

/-!
# jwks-server: a verification development

A shallow embedding of the Go package `server` (key store, JWKS encoder, JWT
issuer, HTTP handlers) together with the parts of the Go standard library the
package's behaviour depends on (`encoding/base64`, `math/big`, `encoding/json`,
`unicode/utf8`, `strings`, `net/url`, `time`), followed by theorems about them.

Conventions of the embedding:

* a Go `string` or `[]byte` is a list of bytes (`GoString`);
* a Go result pair `(T, error)` is a pair `T × Option GoError`;
* a pointer that can be nil (`Priv`, the modulus `N`) is an `Option`;
* the wall clock, the random source and the RSA/SHA-256 primitives are
  explicit arguments;
* a `time.Time` is its number of nanoseconds since the Unix epoch.
-/

namespace JwksServer

/-! ## Bytes and strings -/

/-- One octet. -/
abbrev Byte := Fin 256

/-- A Go `string` (equally a `[]byte`): an arbitrary sequence of bytes. -/
abbrev GoString := List Byte

/-- The byte with the given value, reduced modulo 256 (Go `byte(n)`). -/
def byteOf (n : Nat) : Byte := ⟨n % 256, Nat.mod_lt _ (by decide)⟩

/-- The bytes of an ASCII string literal of the source. -/
def str (s : String) : GoString := s.toList.map (fun ch => byteOf ch.toNat)

/-- A Go `error` value, identified by its message. -/
abbrev GoError := String

/-! ## encoding/base64: `RawURLEncoding` -/

/-- The constant `encodeURL` of `encoding/base64`, the URL-safe alphabet. -/
def encodeURL : GoString :=
  str "ABCDEFGHIJKLMNOPQRSTUVWXYZabcdefghijklmnopqrstuvwxyz0123456789-_"

/-- The table lookup `enc.encode[i]`. -/
def encodeChar (i : Nat) : Byte := encodeURL.getD i 0

/-- Go `base64.RawURLEncoding.EncodeToString`: three source bytes become four
alphabet characters; a final group of one or two bytes becomes two or three
characters, and no padding character is written. -/
def EncodeToString : List Byte → GoString
  | [] => []
  | [a] =>
    let val := a.val * 65536
    [encodeChar (val / 262144 % 64), encodeChar (val / 4096 % 64)]
  | [a, b] =>
    let val := a.val * 65536 + b.val * 256
    [encodeChar (val / 262144 % 64), encodeChar (val / 4096 % 64), encodeChar (val / 64 % 64)]
  | a :: b :: c :: rest =>
    let val := a.val * 65536 + b.val * 256 + c.val
    encodeChar (val / 262144 % 64) :: encodeChar (val / 4096 % 64) ::
      encodeChar (val / 64 % 64) :: encodeChar (val % 64) :: EncodeToString rest

/-- The inverse table `enc.decodeMap`: the position of a character in the
alphabet, if it has one. -/
def decodeChar (ch : Byte) : Option Nat :=
  let i := encodeURL.indexOf ch
  if i < 64 then some i else none

/-- Go `base64.RawURLEncoding.DecodeString` on input without line breaks: groups of
four characters give three bytes, a final group of two or three characters
gives one or two bytes, a single left-over character or a character outside the
alphabet is an error (`none`). -/
def DecodeString : GoString → Option (List Byte)
  | [] => some []
  | [_] => none
  | [p, q] =>
    match decodeChar p, decodeChar q with
    | some x, some y => some [byteOf ((x * 262144 + y * 4096) / 65536)]
    | _, _ => none
  | [p, q, r] =>
    match decodeChar p, decodeChar q, decodeChar r with
    | some x, some y, some z =>
      let val := x * 262144 + y * 4096 + z * 64
      some [byteOf (val / 65536), byteOf (val / 256)]
    | _, _, _ => none
  | p :: q :: r :: s :: rest =>
    match decodeChar p, decodeChar q, decodeChar r, decodeChar s with
    | some x, some y, some z, some w =>
      let val := x * 262144 + y * 4096 + z * 64 + w
      match DecodeString rest with
      | some out => some (byteOf (val / 65536) :: byteOf (val / 256) :: byteOf val :: out)
      | none => none
    | _, _, _, _ => none

/-! ## math/big: `Int.Bytes` -/

/-- The loop behind `natBytes`: one byte per step, least significant last;
`fuel` bounds the number of bytes. -/
def natBytesAux : Nat → Nat → List Byte
  | 0, _ => []
  | fuel + 1, n => if n = 0 then [] else natBytesAux fuel (n / 256) ++ [byteOf (n % 256)]

/-- The big-endian bytes of a natural number, without leading zero bytes; the
empty string for zero. -/
def natBytes (n : Nat) : List Byte := natBytesAux n n

/-- Go `(*big.Int).Bytes`: the big-endian bytes of the absolute value. -/
def bigBytes (x : Int) : List Byte := natBytes x.natAbs

/-- The unsigned integer a byte string denotes when read big-endian
(`(*big.Int).SetBytes`). -/
def bytesToNat (bs : List Byte) : Nat := bs.foldl (fun acc b => acc * 256 + b.val) 0

/-! ## jwks.go -/

/-- JWK represents one RSA public key in JWKS format. -/
structure JWK where
  KTY : GoString
  Use : GoString
  ALG : GoString
  KID : GoString
  N : GoString
  E : GoString
  deriving DecidableEq

/-- JWKS is the JSON response object `{ "keys": [ ... ] }`. -/
structure JWKS where
  Keys : List JWK
  deriving DecidableEq

/-- Go `rsaPublicToJWK` converts RSA public numbers (N and E) into JWKS fields.
Here `n` is the number behind the pointer `n` of the source: with a nil `n`
the call `n.Bytes()` panics, which `handleJWKS` accounts for at its two calls.
The exponent is a Go `int`, which `int64(e)` and `big.NewInt` carry over
unchanged. -/
def rsaPublicToJWK (kid : GoString) (n : Int) (e : Int) : JWK :=
  let nB64 := EncodeToString (bigBytes n)
  let eBig : Int := e
  let eB64 := EncodeToString (bigBytes eBig)
  { KTY := str "RSA", Use := str "sig", ALG := str "RS256", KID := kid, N := nB64, E := eB64 }

/-! ## time -/

/-- A `time.Time` without monotonic reading (every time in the package has
passed through `UTC()`): the instant as nanoseconds since the Unix epoch. -/
structure Time where
  ns : Int
  deriving DecidableEq

/-- A `time.Duration`, in nanoseconds. -/
abbrev Duration := Int

/-- The constant `time.Minute`. -/
def Minute : Duration := 60 * 1000000000

/-- The constant `time.Hour`. -/
def Hour : Duration := 60 * Minute

/-- Go `t.Add(d)`. -/
def Time.Add (t : Time) (d : Duration) : Time := ⟨t.ns + d⟩

/-- Go `t.Before(u)`: the instant `t` is strictly earlier than `u`. -/
def Time.Before (t u : Time) : Bool := decide (t.ns < u.ns)

/-- Go `t.Unix()`: whole seconds since the epoch. The seconds field of a `Time` is
paired with a nanosecond field in `[0, 999999999]`, so this is the floor of the
quotient (on `Int`, `/` with a positive divisor rounds down). -/
def Time.Unix (t : Time) : Int := t.ns / 1000000000

/-! ## keystore.go -/

/-- The type `rsa.PublicKey`. The modulus `N` is a `*big.Int`, a pointer that
may be nil (as in the zero value `rsa.PrivateKey{}`); the exponent `E` is an
`int`. -/
structure PublicKey where
  N : Option Int
  E : Int
  deriving DecidableEq

/-- The type `rsa.PrivateKey`: the embedded public key and the private exponent. -/
structure PrivateKey where
  PublicKey : PublicKey
  D : Int
  deriving DecidableEq

/-- What `rsa.GenerateKey` returns when it succeeds: a key with all its numbers
set, the modulus, the public exponent and the private exponent. -/
structure GeneratedKey where
  N : Int
  E : Int
  D : Int
  deriving DecidableEq

/-- The `*rsa.PrivateKey` behind a generated key: its modulus is not nil. -/
def GeneratedKey.toPrivateKey (k : GeneratedKey) : PrivateKey :=
  { PublicKey := { N := some k.N, E := k.E }, D := k.D }

/-- KeyPair is one RSA private key plus metadata. `Priv` is a pointer and may
be nil. -/
structure KeyPair where
  KID : GoString
  ExpiresAt : Time
  Priv : Option PrivateKey
  deriving DecidableEq

/-- KeyStore holds the two keys: `Active` and `Expired`. -/
structure KeyStore where
  Active : KeyPair
  Expired : KeyPair
  deriving DecidableEq

/-- Go `newKID` makes a short random string for "kid". The argument is the content
of the 16-byte buffer after `rand.Read(b)`, whose error is ignored. -/
def newKID (b : Fin 16 → Byte) : GoString := EncodeToString (List.ofFn b)

/-- Go `NewKeyStore` generates 2 RSA keys on startup. `genActive` and `genExpired`
are the results of the two calls of `rsa.GenerateKey(rand.Reader, 2048)`, `now`
is `time.Now().UTC()`, `rndActive` and `rndExpired` are the random bytes drawn
by the two calls of `newKID`. -/
def NewKeyStore (genActive genExpired : Except GoError GeneratedKey) (now : Time)
    (rndActive rndExpired : Fin 16 → Byte) : Option KeyStore × Option GoError :=
  match genActive with
  | .error err => (none, some err)
  | .ok activePriv =>
    match genExpired with
    | .error err => (none, some err)
    | .ok expiredPriv =>
      (some
        { Active := { KID := newKID rndActive, ExpiresAt := now.Add (24 * Hour),
                      Priv := some activePriv.toPrivateKey },
          Expired := { KID := newKID rndExpired, ExpiresAt := now.Add (-24 * Hour),
                       Priv := some expiredPriv.toPrivateKey } },
       none)

/-! ## unicode/utf8 -/

/-- The constant `utf8.RuneError`, U+FFFD. -/
def RuneError : Nat := 0xFFFD

/-- The two-byte case of `DecodeRune`: lead byte `x` in `C2..DF`. -/
def decodeRune2 (x : Nat) : GoString → Nat × Nat
  | b1 :: _ =>
    if 0x80 ≤ b1.val ∧ b1.val ≤ 0xBF then (x % 32 * 64 + b1.val % 64, 2) else (RuneError, 1)
  | [] => (RuneError, 1)

/-- The three-byte case of `DecodeRune`: lead byte `x` in `E0..EF`; the range
of the second byte excludes overlong forms and surrogates. -/
def decodeRune3 (x : Nat) : GoString → Nat × Nat
  | b1 :: b2 :: _ =>
    let lo := if x = 0xE0 then 0xA0 else 0x80
    let hi := if x = 0xED then 0x9F else 0xBF
    if lo ≤ b1.val ∧ b1.val ≤ hi ∧ 0x80 ≤ b2.val ∧ b2.val ≤ 0xBF then
      (x % 16 * 4096 + b1.val % 64 * 64 + b2.val % 64, 3)
    else (RuneError, 1)
  | _ => (RuneError, 1)

/-- The four-byte case of `DecodeRune`: lead byte `x` in `F0..F4`; the range of
the second byte excludes overlong forms and values above U+10FFFF. -/
def decodeRune4 (x : Nat) : GoString → Nat × Nat
  | b1 :: b2 :: b3 :: _ =>
    let lo := if x = 0xF0 then 0x90 else 0x80
    let hi := if x = 0xF4 then 0x8F else 0xBF
    if lo ≤ b1.val ∧ b1.val ≤ hi ∧ 0x80 ≤ b2.val ∧ b2.val ≤ 0xBF ∧
        0x80 ≤ b3.val ∧ b3.val ≤ 0xBF then
      (x % 8 * 262144 + b1.val % 64 * 4096 + b2.val % 64 * 64 + b3.val % 64, 4)
    else (RuneError, 1)
  | _ => (RuneError, 1)

/-- Go `utf8.DecodeRuneInString`: the first rune of the string and its width in
bytes; `(RuneError, 0)` for the empty string and `(RuneError, 1)` for an invalid
encoding (a stray continuation byte, an overlong form, a surrogate, a value
above U+10FFFF or a truncated sequence). -/
def DecodeRune : GoString → Nat × Nat
  | [] => (RuneError, 0)
  | b0 :: rest =>
    let x := b0.val
    if x < 0x80 then (x, 1)
    else if x < 0xC2 then (RuneError, 1)
    else if x < 0xE0 then decodeRune2 x rest
    else if x < 0xF0 then decodeRune3 x rest
    else if x < 0xF5 then decodeRune4 x rest
    else (RuneError, 1)

/-- The loop of `utf8.ValidString`; `fuel` bounds the number of runes. -/
def validLoop : Nat → GoString → Bool
  | 0, s => s.isEmpty
  | _ + 1, [] => true
  | fuel + 1, b :: rest =>
    let r := DecodeRune (b :: rest)
    if r.1 = RuneError ∧ r.2 = 1 then false else validLoop fuel ((b :: rest).drop r.2)

/-- Go `utf8.ValidString`: the string consists entirely of valid UTF-8 encoded
runes. -/
def ValidString (s : GoString) : Bool := validLoop s.length s

/-- Go `utf8.EncodeRune` for a rune below U+10000 that is not a surrogate. -/
def EncodeRune (r : Nat) : GoString :=
  if r < 0x80 then [byteOf r]
  else if r < 0x800 then [byteOf (0xC0 + r / 64), byteOf (0x80 + r % 64)]
  else [byteOf (0xE0 + r / 4096), byteOf (0x80 + r / 64 % 64), byteOf (0x80 + r % 64)]

/-! ## encoding/json: `Marshal` -/

/-- The constant `hex` of `encoding/json`. -/
def hex : GoString := str "0123456789abcdef"

/-- The table `htmlSafeSet`: the ASCII bytes written to a JSON string as they
are, that is all from the space on except the double quote, the backslash and
the three characters escaped for HTML, `<`, `>` and `&`. -/
def htmlSafeSet (b : Byte) : Bool :=
  decide (0x20 ≤ b.val ∧ b.val < 0x80 ∧ b.val ≠ 0x22 ∧ b.val ≠ 0x26 ∧ b.val ≠ 0x3C ∧
    b.val ≠ 0x3E ∧ b.val ≠ 0x5C)

/-- The `switch` of `appendString` for an ASCII byte outside `htmlSafeSet`. -/
def escapeByte (b : Byte) : GoString :=
  if b.val = 0x5C ∨ b.val = 0x22 then [0x5C, b]
  else if b.val = 0x08 then str "\\b"
  else if b.val = 0x0C then str "\\f"
  else if b.val = 0x0A then str "\\n"
  else if b.val = 0x0D then str "\\r"
  else if b.val = 0x09 then str "\\t"
  else str "\\u00" ++ [hex.getD (b.val / 16) 0, hex.getD (b.val % 16) 0]

/-- The loop of `appendString` (with `escapeHTML` set): safe ASCII bytes and
valid multi-byte runes are copied, other ASCII bytes are escaped, an invalid
byte becomes the escape of U+FFFD, U+2028 and U+2029 are written as escapes.
`fuel` bounds the number of iterations. -/
def appendStringLoop : Nat → GoString → GoString
  | 0, _ => []
  | _ + 1, [] => []
  | fuel + 1, b :: rest =>
    if b.val < 0x80 then
      if htmlSafeSet b then b :: appendStringLoop fuel rest
      else escapeByte b ++ appendStringLoop fuel rest
    else
      let r := DecodeRune (b :: rest)
      if r.1 = RuneError ∧ r.2 = 1 then str "\\ufffd" ++ appendStringLoop fuel rest
      else if r.1 = 0x2028 ∨ r.1 = 0x2029 then
        str "\\u202" ++ [hex.getD (r.1 % 16) 0] ++ appendStringLoop fuel ((b :: rest).drop r.2)
      else (b :: rest).take r.2 ++ appendStringLoop fuel ((b :: rest).drop r.2)

/-- Go `appendString`: a Go string as a JSON string literal. -/
def appendString (src : GoString) : GoString :=
  [0x22] ++ appendStringLoop src.length src ++ [0x22]

/-- The decimal digits of a natural number, most significant first; `fuel`
bounds their number. -/
def formatNatAux : Nat → Nat → GoString
  | 0, _ => []
  | fuel + 1, n =>
    if n < 10 then [byteOf (48 + n)] else formatNatAux fuel (n / 10) ++ [byteOf (48 + n % 10)]

/-- Go `strconv.AppendInt(nil, v, 10)`: how `Marshal` writes an `int64`. -/
def formatInt (v : Int) : GoString :=
  if v < 0 then [0x2D] ++ formatNatAux (v.natAbs + 1) v.natAbs
  else formatNatAux (v.natAbs + 1) v.natAbs

/-! ## jwt.go -/

/-- Header part of a JWT. -/
structure jwtHeader where
  Alg : GoString
  Typ : GoString
  KID : GoString
  deriving DecidableEq

/-- Claims part of a JWT. -/
structure jwtClaims where
  Sub : GoString
  Iat : Int
  Exp : Int
  deriving DecidableEq

/-- Go `json.Marshal` of a `jwtHeader`: the fields in declaration order under
their tags; it has no failing case for a struct of strings. -/
def marshalHeader (h : jwtHeader) : GoString × Option GoError :=
  (str "\x7b\"alg\":" ++ appendString h.Alg ++ str ",\"typ\":" ++ appendString h.Typ ++
    str ",\"kid\":" ++ appendString h.KID ++ str "\x7d", none)

/-- Go `json.Marshal` of a `jwtClaims`; it has no failing case for a struct of a
string and two integers. -/
def marshalClaims (c : jwtClaims) : GoString × Option GoError :=
  (str "\x7b\"sub\":" ++ appendString c.Sub ++ str ",\"iat\":" ++ formatInt c.Iat ++
    str ",\"exp\":" ++ formatInt c.Exp ++ str "\x7d", none)

/-- The primitives of `crypto/sha256` and `crypto/rsa`. `SignPKCS1v15` draws on
`rand.Reader`, so its result may differ from one invocation to the next: its
first argument is the number of invocations made before. -/
structure Crypto where
  Sum256 : GoString → List Byte
  SignPKCS1v15 : Nat → PrivateKey → List Byte → Except GoError (List Byte)

/-- Go `signRS256` signs the input using RSA PKCS#1 v1.5 with SHA-256. `signs` is
the number of invocations of the signing primitive so far; the updated number
is returned with the result. -/
def signRS256 (c : Crypto) (signs : Nat) (priv : Option PrivateKey) (input : GoString) :
    (List Byte × Option GoError) × Nat :=
  match priv with
  | none => (([], some "private key is nil"), signs)
  | some p =>
    let hash := c.Sum256 input
    match c.SignPKCS1v15 signs p hash with
    | .ok sig => ((sig, none), signs + 1)
    | .error err => (([], some err), signs + 1)

/-- The second half of `IssueJWT`, from `json.Marshal(header)` on: header and
claims are serialised and base64url-encoded, joined by a dot to form the
signing input, signed, and the encoded signature is appended. -/
def encodeAndSign (c : Crypto) (signs : Nat) (header : jwtHeader) (claims : jwtClaims)
    (priv : Option PrivateKey) : (GoString × Option GoError) × Nat :=
  match marshalHeader header with
  | (_, some err) => (([], some err), signs)
  | (headerJSON, none) =>
    match marshalClaims claims with
    | (_, some err) => (([], some err), signs)
    | (claimsJSON, none) =>
      let hPart := EncodeToString headerJSON
      let cPart := EncodeToString claimsJSON
      let signingInput := hPart ++ str "." ++ cPart
      match signRS256 c signs priv signingInput with
      | ((_, some err), signs1) => (([], some err), signs1)
      | ((sigBytes, none), signs1) =>
        ((signingInput ++ str "." ++ EncodeToString sigBytes, none), signs1)

/-- Go `IssueJWT` creates a JWT signed with RS256. If `expired` is true, the token
`exp` is in the past. `now` is `time.Now().UTC()`. The first half builds header
and claims, the second half is `encodeAndSign`. -/
def IssueJWT (c : Crypto) (now : Time) (signs : Nat) (key : KeyPair) (expired : Bool) :
    (GoString × Option GoError) × Nat :=
  let header : jwtHeader := { Alg := str "RS256", Typ := str "JWT", KID := key.KID }
  let exp := if expired then (now.Add (-5 * Minute)).Unix else (now.Add (5 * Minute)).Unix
  let claims : jwtClaims := { Sub := str "user", Iat := now.Unix, Exp := exp }
  encodeAndSign c signs header claims key.Priv

/-- Go `strings.Split(s, sep)` for a one-byte separator: the pieces of `s` between
the occurrences of `sep`, one more than there are occurrences. -/
def Split (sep : Byte) : GoString → List GoString
  | [] => [[]]
  | b :: rest =>
    if b = sep then [] :: Split sep rest
    else
      match Split sep rest with
      | [] => [[b]]
      | p :: ps => (b :: p) :: ps

/-- Go `ParseJWTParts` is a helper for tests: split token into 3 parts. -/
def ParseJWTParts (token : GoString) : GoString × GoString × GoString × Bool :=
  let parts := Split 0x2E token
  match parts with
  | [p0, p1, p2] => (p0, p1, p2, true)
  | _ => ([], [], [], false)

/-! ## strings, net/url -/

/-- Go `strings.Cut(s, sep)` for a one-byte separator: the text before and after
the first occurrence of `sep`, and whether there is one. -/
def Cut (sep : Byte) : GoString → GoString × GoString × Bool
  | [] => ([], [], false)
  | b :: rest =>
    if b = sep then ([], rest, true)
    else
      let r := Cut sep rest
      (b :: r.1, r.2.1, r.2.2)

/-- The function `ishex` of `net/url`. -/
def ishex (c : Byte) : Bool :=
  decide ((0x30 ≤ c.val ∧ c.val ≤ 0x39) ∨ (0x61 ≤ c.val ∧ c.val ≤ 0x66) ∨
    (0x41 ≤ c.val ∧ c.val ≤ 0x46))

/-- The function `unhex` of `net/url`. -/
def unhex (c : Byte) : Nat :=
  if 0x30 ≤ c.val ∧ c.val ≤ 0x39 then c.val - 0x30
  else if 0x61 ≤ c.val ∧ c.val ≤ 0x66 then c.val - 0x61 + 10
  else if 0x41 ≤ c.val ∧ c.val ≤ 0x46 then c.val - 0x41 + 10
  else 0

/-- Go `url.QueryUnescape`: `%XX` becomes the byte with that hexadecimal value,
`+` becomes a space; a `%` that is not followed by two hexadecimal digits is an
error (`none`). -/
def QueryUnescape : GoString → Option GoString
  | [] => some []
  | b :: rest =>
    if b.val = 0x25 then
      match rest with
      | h1 :: h2 :: rest2 =>
        if ishex h1 ∧ ishex h2 then
          (QueryUnescape rest2).map (fun out => byteOf (unhex h1 * 16 + unhex h2) :: out)
        else none
      | _ => none
    else if b.val = 0x2B then (QueryUnescape rest).map (fun out => 0x20 :: out)
    else (QueryUnescape rest).map (fun out => b :: out)

/-- The type `url.Values`, a `map[string][]string`. -/
abbrev Values := List (GoString × List GoString)

/-- The statement `m[key] = append(m[key], value)`. -/
def Values.append : Values → GoString → GoString → Values
  | [], key, value => [(key, [value])]
  | (k, vs) :: rest, key, value =>
    if k = key then (k, vs ++ [value]) :: rest else (k, vs) :: Values.append rest key value

/-- The loop of `parseQuery`: the query is cut at each `&`; a part holding a
semicolon, an empty part and a part whose key or value fails to unescape are
skipped; every other part adds its value under its key. `fuel` bounds the
number of parts. -/
def parseQuery : Nat → Values → GoString → Values
  | 0, m, _ => m
  | fuel + 1, m, query =>
    if query = [] then m
    else
      let cut := Cut 0x26 query
      let key := cut.1
      let query1 := cut.2.1
      if 0x3B ∈ key then parseQuery fuel m query1
      else if key = [] then parseQuery fuel m query1
      else
        let kv := Cut 0x3D key
        match QueryUnescape kv.1 with
        | none => parseQuery fuel m query1
        | some key1 =>
          match QueryUnescape kv.2.1 with
          | none => parseQuery fuel m query1
          | some value1 => parseQuery fuel (m.append key1 value1) query1

/-- Go `(*url.URL).Query`: the parsed `RawQuery`, malformed pairs silently
discarded. -/
def Query (rawQuery : GoString) : Values := parseQuery rawQuery.length [] rawQuery

/-! ## handlers.go -/

/-- What the handlers read of an `*http.Request`: the method, and the path and
the raw query (the text after `?`) of its URL. -/
structure Request where
  Method : GoString
  Path : GoString
  RawQuery : GoString
  deriving DecidableEq

/-- What a handler wrote to the body of its response. -/
inductive Body where
  /-- Nothing was written. -/
  | empty
  /-- These bytes were written as they are. -/
  | text (s : GoString)
  /-- The handler ran `json.NewEncoder(w).Encode(v)` on a `JWKS`. -/
  | jwks (v : JWKS)
  /-- The handler ran `json.NewEncoder(w).Encode` on
  `map[string]string` with the one key `token`. -/
  | token (t : GoString)
  deriving DecidableEq

/-- What a handler left in its `http.ResponseWriter`: the status code, the
`Content-Type` it set, and the body. -/
structure Response where
  status : Nat
  contentType : Option GoString
  body : Body
  deriving DecidableEq

/-- How a handler ends: it returns with a response written, or it panics. -/
inductive Outcome where
  | response (r : Response)
  | panic
  deriving DecidableEq

/-- Go `http.Error(w, msg, code)`: a plain-text response with the message and a
line feed as body. -/
def httpError (msg : GoString) (code : Nat) : Response :=
  { status := code, contentType := some (str "text/plain; charset=utf-8"),
    body := .text (msg ++ [0x0A]) }

/-- Go `handleJWKS` returns only keys that are NOT expired. `now` is
`time.Now().UTC()`. Reading `PublicKey` through a nil `Priv` panics, and so
does `rsaPublicToJWK` when the modulus `pub.N` it is given is nil (its call of
`n.Bytes()`). -/
def handleJWKS (now : Time) (ks : KeyStore) : Outcome :=
  let resp : JWKS := { Keys := [] }
  let afterActive : Option JWKS :=
    if now.Before ks.Active.ExpiresAt then
      match ks.Active.Priv with
      | none => none
      | some priv =>
        let pub := priv.PublicKey
        match pub.N with
        | none => none
        | some n => some { Keys := resp.Keys ++ [rsaPublicToJWK ks.Active.KID n pub.E] }
    else some resp
  match afterActive with
  | none => .panic
  | some resp1 =>
    let afterExpired : Option JWKS :=
      if now.Before ks.Expired.ExpiresAt then
        match ks.Expired.Priv with
        | none => none
        | some priv =>
          let pub := priv.PublicKey
          match pub.N with
          | none => none
          | some n => some { Keys := resp1.Keys ++ [rsaPublicToJWK ks.Expired.KID n pub.E] }
      else some resp1
    match afterExpired with
    | none => .panic
    | some resp2 =>
      .response { status := 200, contentType := some (str "application/json"), body := .jwks resp2 }

/-- Go `handleAuth` issues a token: with the active key, or with the expired key
and `exp` in the past when the `expired` query parameter is present. -/
def handleAuth (c : Crypto) (now : Time) (signs : Nat) (r : Request) (ks : KeyStore) :
    Response × Nat :=
  let expiredMode : Bool :=
    match (Query r.RawQuery).lookup (str "expired") with
    | some _ => true
    | none => false
  let keyToUse := if expiredMode then ks.Expired else ks.Active
  match IssueJWT c now signs keyToUse expiredMode with
  | ((_, some _), signs1) => (httpError (str "could not create token") 500, signs1)
  | ((token, none), signs1) =>
    ({ status := 200, contentType := some (str "application/json"), body := .token token },
     signs1)

/-- A registered handler: given the primitives, the clock reading, the number
of signing invocations so far and the request, the outcome and the updated
number of signing invocations. -/
abbrev Handler := Crypto → Time → Nat → Request → Outcome × Nat

/-- Go `RegisterRoutes` sets up the two endpoints: each pattern with its handler
function. -/
def RegisterRoutes (ks : KeyStore) : List (GoString × Handler) :=
  [ (str "/.well-known/jwks.json", fun _ now signs r =>
      if r.Method ≠ str "GET" then
        (.response { status := 405, contentType := none, body := .empty }, signs)
      else (handleJWKS now ks, signs)),
    (str "/auth", fun c now signs r =>
      if r.Method ≠ str "POST" then
        (.response { status := 405, contentType := none, body := .empty }, signs)
      else
        let res := handleAuth c now signs r ks
        (.response res.1, res.2)) ]

/-- Go `(*http.ServeMux).ServeHTTP` for patterns without a trailing slash and a
request path in canonical form: the handler registered under the path runs, and
a path that is not registered is answered by `http.NotFound`. -/
def ServeHTTP (routes : List (GoString × Handler)) (c : Crypto) (now : Time) (signs : Nat)
    (r : Request) : Outcome × Nat :=
  match routes.lookup r.Path with
  | some h => h c now signs r
  | none => (.response (httpError (str "404 page not found") 404), signs)

/-! ## Reading a token back

What a consumer of a token does with it (and what the tests of the package do):
the decoder of `encoding/base64` above, and a reader for the JSON objects that
`encoding/json` writes for a struct of strings and integers. -/

/-- A JSON value of the kind the package writes: a string or an integer. -/
inductive JSONValue where
  | string (s : GoString)
  | number (n : Int)
  deriving DecidableEq

/-- A JSON object: its members in the order of the text. -/
abbrev JSONObject := List (GoString × JSONValue)

/-- The value of one hexadecimal digit of a `\u` escape. -/
def hexVal (c : Byte) : Option Nat := if ishex c then some (unhex c) else none

/-- The byte a two-character escape stands for. -/
def simpleEscape (e : Byte) : Option Byte :=
  if e.val = 0x22 ∨ e.val = 0x5C ∨ e.val = 0x2F then some e
  else if e.val = 0x62 then some 0x08
  else if e.val = 0x66 then some 0x0C
  else if e.val = 0x6E then some 0x0A
  else if e.val = 0x72 then some 0x0D
  else if e.val = 0x74 then some 0x09
  else none

/-- Reads a JSON string literal from just after its opening quote: the string
it denotes and the text after the closing quote. Escapes are resolved (a `\u`
escape to the UTF-8 encoding of its code point; surrogates are not accepted), a
raw control character is an error, every other byte stands for itself. -/
def unquote : GoString → Option (GoString × GoString)
  | [] => none
  | b :: rest =>
    if b.val = 0x22 then some ([], rest)
    else if b.val = 0x5C then
      match rest with
      | [] => none
      | e :: rest1 =>
        if e.val = 0x75 then
          match rest1 with
          | h1 :: h2 :: h3 :: h4 :: rest2 =>
            match hexVal h1, hexVal h2, hexVal h3, hexVal h4 with
            | some d1, some d2, some d3, some d4 =>
              let r := d1 * 4096 + d2 * 256 + d3 * 16 + d4
              if 0xD800 ≤ r ∧ r < 0xE000 then none
              else (unquote rest2).map (fun p => (EncodeRune r ++ p.1, p.2))
            | _, _, _, _ => none
          | _ => none
        else
          match simpleEscape e with
          | none => none
          | some ch => (unquote rest1).map (fun p => (ch :: p.1, p.2))
    else if b.val < 0x20 then none
    else (unquote rest).map (fun p => (b :: p.1, p.2))

/-- Reads decimal digits: the number they denote after the digits already read
(`acc`), and the text after them. -/
def readDigits : Nat → GoString → Nat × GoString
  | acc, [] => (acc, [])
  | acc, b :: rest =>
    if 0x30 ≤ b.val ∧ b.val ≤ 0x39 then readDigits (acc * 10 + (b.val - 0x30)) rest
    else (acc, b :: rest)

/-- Reads a JSON integer: an optional minus sign and at least one digit. -/
def readNumber : GoString → Option (Int × GoString)
  | [] => none
  | b :: rest =>
    if b.val = 0x2D then
      match rest with
      | d :: _ =>
        if 0x30 ≤ d.val ∧ d.val ≤ 0x39 then
          let r := readDigits 0 rest
          some (-(r.1 : Int), r.2)
        else none
      | [] => none
    else if 0x30 ≤ b.val ∧ b.val ≤ 0x39 then
      let r := readDigits 0 (b :: rest)
      some ((r.1 : Int), r.2)
    else none

/-- Reads a JSON value: a string literal or an integer. -/
def readValue : GoString → Option (JSONValue × GoString)
  | [] => none
  | b :: rest =>
    if b.val = 0x22 then (unquote rest).map (fun p => (JSONValue.string p.1, p.2))
    else (readNumber (b :: rest)).map (fun p => (JSONValue.number p.1, p.2))

/-- Reads the members of a JSON object up to and including the closing brace.
`fuel` bounds the number of members. -/
def readMembers : Nat → GoString → Option (JSONObject × GoString)
  | 0, _ => none
  | _ + 1, [] => none
  | fuel + 1, q :: rest =>
    if q.val = 0x22 then
      match unquote rest with
      | some (key, colon :: rest1) =>
        if colon.val = 0x3A then
          match readValue rest1 with
          | some (v, d :: rest2) =>
            if d.val = 0x7D then some ([(key, v)], rest2)
            else if d.val = 0x2C then
              (readMembers fuel rest2).map (fun p => ((key, v) :: p.1, p.2))
            else none
          | _ => none
        else none
      | _ => none
    else none

/-- Reads a JSON object written without white space whose values are strings
and integers; `none` when the text is not one. -/
def readObject : GoString → Option JSONObject
  | b :: c :: rest =>
    if b.val = 0x7B then
      if c.val = 0x7D then (if rest = [] then some [] else none)
      else
        match readMembers (rest.length + 1) (c :: rest) with
        | some (obj, []) => some obj
        | _ => none
    else none
  | _ => none

/-- The JSON object a token segment decodes to: base64url without padding,
then JSON. -/
def decodeSegment (seg : GoString) : Option JSONObject :=
  match DecodeString seg with
  | some json => readObject json
  | none => none

/-! ## Vocabulary of the statements -/

/-- Membership in the base64url alphabet: `A-Z`, `a-z`, `0-9`, `-`, `_` (so
neither the padding character `=` nor the dot). -/
def isBase64URL (b : Byte) : Bool :=
  decide ((0x41 ≤ b.val ∧ b.val ≤ 0x5A) ∨ (0x61 ≤ b.val ∧ b.val ≤ 0x7A) ∨
    (0x30 ≤ b.val ∧ b.val ≤ 0x39) ∨ b.val = 0x2D ∨ b.val = 0x5F)

/-- A well-formed multi-byte rune `c` of width `n` at the head of a string: the
width, the bytes it occupies, and their form for U+2028 and U+2029. -/
structure RuneAt (s : GoString) (c n : Nat) : Prop where
  width : 2 ≤ n ∧ n ≤ 4
  high : ∀ x ∈ s.take n, 0x80 ≤ x.val
  sep : (c = 0x2028 ∨ c = 0x2029) → s.take n = EncodeRune c

/-- The text does not start with a decimal digit. -/
def notDigitHead (t : GoString) : Prop := ∀ d ∈ t.head?, ¬(0x30 ≤ d.val ∧ d.val ≤ 0x39)

/-- The text `val` of a value, followed by a comma or a closing brace, reads
back as the value `v`. -/
def ReadsAs (val : GoString) (v : JSONValue) : Prop :=
  ∀ (d : Byte) (rest : GoString), d.val = 0x2C ∨ d.val = 0x7D →
    readValue (val ++ d :: rest) = some (v, d :: rest)

/-- What the coercion of `json.Marshal` to valid UTF-8 makes of a string: each
byte that does not belong to a valid encoding is replaced by U+FFFD (the bytes
`EF BF BD`), everything else is kept. The loop follows `appendStringLoop`. -/
def coerceLoop : Nat → GoString → GoString
  | 0, _ => []
  | _ + 1, [] => []
  | fuel + 1, b :: rest =>
    if b.val < 0x80 then b :: coerceLoop fuel rest
    else
      let r := DecodeRune (b :: rest)
      if r.1 = RuneError ∧ r.2 = 1 then [0xEF, 0xBF, 0xBD] ++ coerceLoop fuel rest
      else (b :: rest).take r.2 ++ coerceLoop fuel ((b :: rest).drop r.2)

/-- The string a JSON reader gets back for a Go string written by
`json.Marshal`. -/
def coerce (s : GoString) : GoString := coerceLoop s.length s

/-- The string `IssueJWT` hands to `signRS256`: encoded header, dot, encoded
claims. -/
def signingInput (header : jwtHeader) (claims : jwtClaims) : GoString :=
  EncodeToString (marshalHeader header).1 ++ str "." ++ EncodeToString (marshalClaims claims).1

/-- The modulus of a key pair, reached through the two pointers `Priv` and
`N`; none when either is nil. -/
def modulus (kp : KeyPair) : Option Int := kp.Priv.bind (fun priv => priv.PublicKey.N)

/-- The public-key-set entry of a key pair; none without a private key or
without a modulus. -/
def publicEntry (kp : KeyPair) : Option JWK :=
  kp.Priv.bind (fun priv =>
    priv.PublicKey.N.map (fun n => rsaPublicToJWK kp.KID n priv.PublicKey.E))

/-- The key pairs of a store whose `ExpiresAt` is strictly after `now`, in the
order of the fields of the store. -/
def unexpired (now : Time) (ks : KeyStore) : List KeyPair :=
  [ks.Active, ks.Expired].filter (fun kp => decide (now.ns < kp.ExpiresAt.ns))

/-- The discovery filter as the specification words it: the entries of the
unexpired key pairs, active before expired. -/
def discoveryEntries (now : Time) (ks : KeyStore) : List JWK :=
  (unexpired now ks).filterMap publicEntry

/-- The response with status 200, content type `application/json` and the
given body. -/
def okJSON (body : Body) : Response :=
  { status := 200, contentType := some (str "application/json"), body := body }

/-- The response of a route to a method it does not allow: status 405, no
content type, nothing written. -/
def methodNotAllowed : Response := { status := 405, contentType := none, body := .empty }

/-- The parsed query has the key `expired`. -/
def hasExpired (rawQuery : GoString) : Prop := (Query rawQuery).lookup (str "expired") ≠ none

instance (rawQuery : GoString) : Decidable (hasExpired rawQuery) :=
  inferInstanceAs (Decidable ((Query rawQuery).lookup (str "expired") ≠ none))

/-- The token splits into three segments of which the first decodes to the
object `header` and the second to the object `claims`. -/
def DecodesTo (token : GoString) (header claims : JSONObject) : Prop :=
  ∃ h c s, ParseJWTParts token = (h, c, s, true) ∧ decodeSegment h = some header ∧
    decodeSegment c = some claims

/-- The JSON object of a token header with the given `kid`. -/
def headerObject (kid : GoString) : JSONObject :=
  [(str "alg", JSONValue.string (str "RS256")), (str "typ", JSONValue.string (str "JWT")),
   (str "kid", JSONValue.string kid)]

/-- The JSON object of token claims with the given `iat` and `exp`. -/
def claimsObject (iat exp : Int) : JSONObject :=
  [(str "sub", JSONValue.string (str "user")), (str "iat", JSONValue.number iat),
   (str "exp", JSONValue.number exp)]

/-- A stand-in for the primitives, for evaluating the handlers on examples: the
digest is the first two bytes of the input, the signature is a byte of the
private exponent followed by the digest. -/
def sampleCrypto : Crypto :=
  { Sum256 := fun input => input.take 2,
    SignPKCS1v15 := fun _ p digest => Except.ok (byteOf p.D.natAbs :: digest) }

/-- A small RSA key: modulus 3233, public exponent 17, private exponent 2753. -/
def sampleKeyA : PrivateKey := { PublicKey := { N := some 3233, E := 17 }, D := 2753 }

/-- A second small RSA key: modulus 2773, public exponent 17, private exponent 157. -/
def sampleKeyB : PrivateKey := { PublicKey := { N := some 2773, E := 17 }, D := 157 }

/-- A key store with two different identifiers, active until the instant 100,
expired since the instant -100. -/
def sampleStore : KeyStore :=
  { Active := { KID := str "kid-A", ExpiresAt := Time.mk 100, Priv := some sampleKeyA },
    Expired := { KID := str "kid-B", ExpiresAt := Time.mk (-100), Priv := some sampleKeyB } }

/-! ## Facts about base64url -/

theorem decodeChar_encodeChar_fin : ∀ i : Fin 64, decodeChar (encodeChar i.val) = some i.val := by
  decide

theorem decodeChar_encodeChar (i : Nat) (h : i < 64) : decodeChar (encodeChar i) = some i :=
  decodeChar_encodeChar_fin ⟨i, h⟩

theorem isBase64URL_encodeChar_fin : ∀ i : Fin 64, isBase64URL (encodeChar i.val) = true := by
  decide

theorem isBase64URL_encodeChar (i : Nat) (h : i < 64) : isBase64URL (encodeChar i) = true :=
  isBase64URL_encodeChar_fin ⟨i, h⟩

theorem EncodeToString_alphabet (bs : List Byte) :
    ∀ ch ∈ EncodeToString bs, isBase64URL ch = true := by
  induction bs using EncodeToString.induct with
  | case1 => simp [EncodeToString]
  | case2 a =>
    intro ch hch
    simp only [EncodeToString, List.mem_cons, List.mem_singleton, List.not_mem_nil, or_false] at hch
    rcases hch with h | h <;> subst h <;> exact isBase64URL_encodeChar _ (by omega)
  | case3 a b =>
    intro ch hch
    simp only [EncodeToString, List.mem_cons, List.mem_singleton, List.not_mem_nil, or_false] at hch
    rcases hch with h | h | h <;> subst h <;> exact isBase64URL_encodeChar _ (by omega)
  | case4 a b c rest ih =>
    intro ch hch
    simp only [EncodeToString, List.mem_cons] at hch
    rcases hch with h | h | h | h | h
    · subst h; exact isBase64URL_encodeChar _ (by omega)
    · subst h; exact isBase64URL_encodeChar _ (by omega)
    · subst h; exact isBase64URL_encodeChar _ (by omega)
    · subst h; exact isBase64URL_encodeChar _ (by omega)
    · exact ih ch h

theorem byteOf_val (b : Byte) : byteOf b.val = b := by
  apply Fin.ext
  simp [byteOf]

theorem DecodeString_EncodeToString (bs : List Byte) :
    DecodeString (EncodeToString bs) = some bs := by
  induction bs using EncodeToString.induct with
  | case1 => simp [EncodeToString, DecodeString]
  | case2 a =>
    simp only [EncodeToString, DecodeString]
    rw [decodeChar_encodeChar _ (by omega), decodeChar_encodeChar _ (by omega)]
    simp only [Option.some.injEq, List.cons.injEq, and_true]
    apply Fin.ext
    simp only [byteOf]
    omega
  | case3 a b =>
    simp only [EncodeToString, DecodeString]
    rw [decodeChar_encodeChar _ (by omega), decodeChar_encodeChar _ (by omega),
      decodeChar_encodeChar _ (by omega)]
    simp only [Option.some.injEq, List.cons.injEq, and_true]
    constructor <;> apply Fin.ext <;> simp only [byteOf] <;> omega
  | case4 a b c rest ih =>
    simp only [EncodeToString, DecodeString]
    rw [decodeChar_encodeChar _ (by omega), decodeChar_encodeChar _ (by omega),
      decodeChar_encodeChar _ (by omega), decodeChar_encodeChar _ (by omega)]
    simp only [ih, Option.some.injEq, List.cons.injEq, and_true]
    refine ⟨?_, ?_, ?_⟩ <;> apply Fin.ext <;> simp only [byteOf] <;> omega

theorem bytesToNat_append_singleton (xs : List Byte) (b : Byte) :
    bytesToNat (xs ++ [b]) = bytesToNat xs * 256 + b.val := by
  simp [bytesToNat, List.foldl_append]

theorem bytesToNat_natBytesAux (fuel n : Nat) (h : n ≤ fuel) :
    bytesToNat (natBytesAux fuel n) = n := by
  induction fuel generalizing n with
  | zero =>
    have : n = 0 := by omega
    subst this
    simp [natBytesAux, bytesToNat]
  | succ fuel ih =>
    simp only [natBytesAux]
    split
    · next h0 => subst h0; simp [bytesToNat]
    · next h0 =>
      rw [bytesToNat_append_singleton, ih (n / 256) (by omega)]
      simp only [byteOf]
      omega

theorem bytesToNat_natBytes (n : Nat) : bytesToNat (natBytes n) = n :=
  bytesToNat_natBytesAux n n (Nat.le_refl n)

theorem natBytesAux_head (fuel n : Nat) (h : n ≤ fuel) (hn : 0 < n) :
    ∃ b tl, natBytesAux fuel n = b :: tl ∧ b.val ≠ 0 := by
  induction fuel generalizing n with
  | zero => omega
  | succ fuel ih =>
    simp only [natBytesAux]
    rw [if_neg (by omega)]
    by_cases hq : n / 256 = 0
    · refine ⟨byteOf (n % 256), [], ?_, ?_⟩
      · rw [hq]
        cases fuel <;> simp [natBytesAux]
      · simp only [byteOf]
        omega
    · obtain ⟨b, tl, hb, hb0⟩ := ih (n / 256) (by omega) (by omega)
      exact ⟨b, tl ++ [byteOf (n % 256)], by rw [hb]; rfl, hb0⟩

theorem natBytes_head (n : Nat) (hn : 0 < n) :
    ∃ b tl, natBytes n = b :: tl ∧ b.val ≠ 0 :=
  natBytesAux_head n n (Nat.le_refl n) hn

/-! ## Facts about `Split` -/

theorem Split_ne_nil (sep : Byte) (s : GoString) : Split sep s ≠ [] := by
  induction s with
  | nil => simp [Split]
  | cons b rest ih =>
    simp only [Split]
    split
    · simp
    · split <;> simp

theorem Split_not_mem (sep : Byte) (s : GoString) (h : sep ∉ s) : Split sep s = [s] := by
  induction s with
  | nil => simp [Split]
  | cons b rest ih =>
    simp only [List.mem_cons, not_or] at h
    simp only [Split]
    rw [if_neg (fun hb => h.1 hb.symm), ih h.2]

theorem Split_append (sep : Byte) (s t : GoString) (h : sep ∉ s) :
    Split sep (s ++ sep :: t) = s :: Split sep t := by
  induction s with
  | nil => simp [Split]
  | cons b rest ih =>
    simp only [List.mem_cons, not_or] at h
    have e : (b :: rest) ++ sep :: t = b :: (rest ++ sep :: t) := rfl
    rw [e, Split, if_neg (fun hb => h.1 hb.symm), ih h.2]

theorem dot_not_mem_EncodeToString (bs : List Byte) : (0x2E : Byte) ∉ EncodeToString bs := by
  intro h
  have := EncodeToString_alphabet bs _ h
  revert this
  decide

theorem ParseJWTParts_join (a b c : List Byte) :
    ParseJWTParts (EncodeToString a ++ str "." ++ EncodeToString b ++ str "." ++ EncodeToString c)
      = (EncodeToString a, EncodeToString b, EncodeToString c, true) := by
  have hdot : str "." = [(0x2E : Byte)] := by decide
  simp only [ParseJWTParts, hdot, List.append_assoc, List.singleton_append, List.cons_append,
    List.nil_append]
  rw [Split_append _ _ _ (dot_not_mem_EncodeToString a),
    Split_append _ _ _ (dot_not_mem_EncodeToString b),
    Split_not_mem _ _ (dot_not_mem_EncodeToString c)]

/-! ## Facts about JSON string literals -/

theorem hexVal_hex_fin : ∀ k : Fin 16, hexVal (hex.getD k.val 0) = some k.val := by decide

theorem hexVal_hex (k : Nat) (h : k < 16) : hexVal (hex.getD k 0) = some k :=
  hexVal_hex_fin ⟨k, h⟩

theorem unquote_high (b : Byte) (h : 0x80 ≤ b.val) (t : GoString) :
    unquote (b :: t) = (unquote t).map (fun p => (b :: p.1, p.2)) := by
  rw [unquote.eq_def]
  simp only []
  rw [if_neg (by omega), if_neg (by omega), if_neg (by omega)]

theorem unquote_copy (pre : GoString) (h : ∀ x ∈ pre, 0x80 ≤ x.val) (t : GoString) :
    unquote (pre ++ t) = (unquote t).map (fun p => (pre ++ p.1, p.2)) := by
  induction pre with
  | nil => simp
  | cons b pre ih =>
    rw [List.cons_append, unquote_high b (h b (List.mem_cons_self _ _)),
      ih (fun x hx => h x (List.mem_cons_of_mem _ hx))]
    cases unquote t <;> simp

theorem unquote_safe (b : Byte) (h : htmlSafeSet b = true) (t : GoString) :
    unquote (b :: t) = (unquote t).map (fun p => (b :: p.1, p.2)) := by
  simp only [htmlSafeSet, decide_eq_true_eq] at h
  rw [unquote.eq_def]
  simp only []
  rw [if_neg (by omega), if_neg (by omega), if_neg (by omega)]

theorem decodeRune2_spec (b : Byte) (rest : GoString) (hb : 0xC2 ≤ b.val)
    (hv : ¬((decodeRune2 b.val rest).1 = RuneError ∧ (decodeRune2 b.val rest).2 = 1)) :
    RuneAt (b :: rest) (decodeRune2 b.val rest).1 (decodeRune2 b.val rest).2 := by
  rcases rest with _ | ⟨b1, r1⟩
  · simp [decodeRune2] at hv
  · simp only [decodeRune2] at hv ⊢
    split_ifs at hv ⊢ with h1
    · refine ⟨by simp, ?_, ?_⟩
      · simp only [List.take_succ_cons, List.take_zero, List.mem_cons, List.not_mem_nil, or_false]
        rintro x (rfl | rfl) <;> omega
      · intro hc
        have := b.isLt
        have := b1.isLt
        omega
    · simp at hv

theorem EncodeRune_2028 : EncodeRune 0x2028 = [0xE2, 0x80, 0xA8] := by decide

theorem EncodeRune_2029 : EncodeRune 0x2029 = [0xE2, 0x80, 0xA9] := by decide

theorem rune3_core (b b1 b2 : Byte) (r2 : GoString) (lo hi : Nat) (hb : 0xE0 ≤ b.val)
    (hb2 : b.val < 0xF0) (hlo : 0x80 ≤ lo) (hhi : hi ≤ 0xBF)
    (h1 : lo ≤ b1.val ∧ b1.val ≤ hi ∧ 0x80 ≤ b2.val ∧ b2.val ≤ 0xBF) :
    RuneAt (b :: b1 :: b2 :: r2) (b.val % 16 * 4096 + b1.val % 64 * 64 + b2.val % 64) 3 := by
  refine ⟨by simp, ?_, ?_⟩
  · simp only [List.take_succ_cons, List.take_zero, List.mem_cons, List.not_mem_nil, or_false]
    rintro x (rfl | rfl | rfl) <;> omega
  · have := b.isLt
    have := b1.isLt
    have := b2.isLt
    rintro (hc | hc)
    · rw [hc, EncodeRune_2028]
      have e0 : b = 0xE2 := Fin.ext (by show b.val = 0xE2; omega)
      have e1 : b1 = 0x80 := Fin.ext (by show b1.val = 0x80; omega)
      have e2 : b2 = 0xA8 := Fin.ext (by show b2.val = 0xA8; omega)
      rw [e0, e1, e2]
      rfl
    · rw [hc, EncodeRune_2029]
      have e0 : b = 0xE2 := Fin.ext (by show b.val = 0xE2; omega)
      have e1 : b1 = 0x80 := Fin.ext (by show b1.val = 0x80; omega)
      have e2 : b2 = 0xA9 := Fin.ext (by show b2.val = 0xA9; omega)
      rw [e0, e1, e2]
      rfl

theorem decodeRune3_spec (b : Byte) (rest : GoString) (hb : 0xE0 ≤ b.val) (hb2 : b.val < 0xF0)
    (hv : ¬((decodeRune3 b.val rest).1 = RuneError ∧ (decodeRune3 b.val rest).2 = 1)) :
    RuneAt (b :: rest) (decodeRune3 b.val rest).1 (decodeRune3 b.val rest).2 := by
  rcases rest with _ | ⟨b1, _ | ⟨b2, r2⟩⟩
  · simp [decodeRune3] at hv
  · simp [decodeRune3] at hv
  · simp only [decodeRune3] at hv ⊢
    generalize hlo : (if b.val = 0xE0 then 0xA0 else 0x80) = lo at hv ⊢
    generalize hhi : (if b.val = 0xED then 0x9F else 0xBF) = hi at hv ⊢
    have hhi2 : hi ≤ 0xBF := by rw [← hhi]; split <;> omega
    have hlo2 : 0x80 ≤ lo := by rw [← hlo]; split <;> omega
    by_cases h1 : lo ≤ b1.val ∧ b1.val ≤ hi ∧ 0x80 ≤ b2.val ∧ b2.val ≤ 0xBF
    · rw [if_pos h1]
      exact rune3_core b b1 b2 r2 lo hi hb hb2 hlo2 hhi2 h1
    · rw [if_neg h1] at hv
      simp at hv

theorem rune4_core (b b1 b2 b3 : Byte) (r3 : GoString) (lo hi : Nat) (hb : 0xF0 ≤ b.val)
    (hb2 : b.val < 0xF5)
    (hlo : 0x80 ≤ lo) (hhi : hi ≤ 0xBF) (hlo4 : b.val = 0xF0 → 0x90 ≤ lo)
    (h1 : lo ≤ b1.val ∧ b1.val ≤ hi ∧ 0x80 ≤ b2.val ∧ b2.val ≤ 0xBF ∧
      0x80 ≤ b3.val ∧ b3.val ≤ 0xBF) :
    RuneAt (b :: b1 :: b2 :: b3 :: r3)
      (b.val % 8 * 262144 + b1.val % 64 * 4096 + b2.val % 64 * 64 + b3.val % 64) 4 := by
  refine ⟨by simp, ?_, ?_⟩
  · simp only [List.take_succ_cons, List.take_zero, List.mem_cons, List.not_mem_nil, or_false]
    rintro x (rfl | rfl | rfl | rfl) <;> omega
  · have := b.isLt
    have := b1.isLt
    intro hc
    exfalso
    by_cases h0 : b.val = 0xF0
    · have := hlo4 h0
      omega
    · omega

theorem decodeRune4_spec (b : Byte) (rest : GoString) (hb : 0xF0 ≤ b.val) (hb2 : b.val < 0xF5)
    (hv : ¬((decodeRune4 b.val rest).1 = RuneError ∧ (decodeRune4 b.val rest).2 = 1)) :
    RuneAt (b :: rest) (decodeRune4 b.val rest).1 (decodeRune4 b.val rest).2 := by
  rcases rest with _ | ⟨b1, _ | ⟨b2, _ | ⟨b3, r3⟩⟩⟩
  · simp [decodeRune4] at hv
  · simp [decodeRune4] at hv
  · simp [decodeRune4] at hv
  · simp only [decodeRune4] at hv ⊢
    generalize hlo : (if b.val = 0xF0 then 0x90 else 0x80) = lo at hv ⊢
    generalize hhi : (if b.val = 0xF4 then 0x8F else 0xBF) = hi at hv ⊢
    have hhi2 : hi ≤ 0xBF := by rw [← hhi]; split <;> omega
    have hlo2 : 0x80 ≤ lo := by rw [← hlo]; split <;> omega
    have hlo4 : b.val = 0xF0 → 0x90 ≤ lo := by
      intro h0
      rw [← hlo, if_pos h0]
    by_cases h1 : lo ≤ b1.val ∧ b1.val ≤ hi ∧ 0x80 ≤ b2.val ∧ b2.val ≤ 0xBF ∧
        0x80 ≤ b3.val ∧ b3.val ≤ 0xBF
    · rw [if_pos h1]
      exact rune4_core b b1 b2 b3 r3 lo hi hb hb2 hlo2 hhi2 hlo4 h1
    · rw [if_neg h1] at hv
      simp at hv

theorem DecodeRune_spec (b : Byte) (rest : GoString) (hb : 0x80 ≤ b.val)
    (hv : ¬((DecodeRune (b :: rest)).1 = RuneError ∧ (DecodeRune (b :: rest)).2 = 1)) :
    RuneAt (b :: rest) (DecodeRune (b :: rest)).1 (DecodeRune (b :: rest)).2 := by
  simp only [DecodeRune] at hv ⊢
  split_ifs at hv ⊢ with h1 h2 h3 h4 h5
  · omega
  · simp at hv
  · exact decodeRune2_spec b rest (by omega) hv
  · exact decodeRune3_spec b rest (by omega) (by omega) hv
  · exact decodeRune4_spec b rest (by omega) (by omega) hv
  · simp at hv

theorem unquote_simple (e ch : Byte) (h : simpleEscape e = some ch) (he : e.val ≠ 0x75)
    (t : GoString) :
    unquote (0x5C :: e :: t) = (unquote t).map (fun p => (ch :: p.1, p.2)) := by
  rw [unquote.eq_def]
  simp only []
  rw [if_neg (by decide), if_pos (by decide)]
  rw [if_neg he, h]

theorem unquote_u (h1 h2 h3 h4 : Byte) (d1 d2 d3 d4 : Nat) (e1 : hexVal h1 = some d1)
    (e2 : hexVal h2 = some d2) (e3 : hexVal h3 = some d3) (e4 : hexVal h4 = some d4)
    (hr : ¬(0xD800 ≤ d1 * 4096 + d2 * 256 + d3 * 16 + d4 ∧
      d1 * 4096 + d2 * 256 + d3 * 16 + d4 < 0xE000)) (t : GoString) :
    unquote (0x5C :: 0x75 :: h1 :: h2 :: h3 :: h4 :: t) =
      (unquote t).map (fun p => (EncodeRune (d1 * 4096 + d2 * 256 + d3 * 16 + d4) ++ p.1, p.2)) := by
  rw [unquote.eq_def]
  simp only []
  rw [if_neg (by decide), if_pos (by decide)]
  rw [if_pos (by decide)]
  simp only [e1, e2, e3, e4]
  rw [if_neg hr]

theorem unquote_escapeByte (b : Byte) (hb : b.val < 0x80) (hs : htmlSafeSet b = false)
    (t : GoString) :
    unquote (escapeByte b ++ t) = (unquote t).map (fun p => (b :: p.1, p.2)) := by
  simp only [htmlSafeSet, decide_eq_false_iff_not] at hs
  unfold escapeByte
  split_ifs with c1 c2 c3 c4 c5 c6
  · exact unquote_simple b b (by simp only [simpleEscape]; rw [if_pos (by omega)]) (by omega) t
  · have e : b = 0x08 := Fin.ext (by show b.val = 0x08; omega)
    subst e
    exact unquote_simple 0x62 0x08 (by decide) (by decide) t
  · have e : b = 0x0C := Fin.ext (by show b.val = 0x0C; omega)
    subst e
    exact unquote_simple 0x66 0x0C (by decide) (by decide) t
  · have e : b = 0x0A := Fin.ext (by show b.val = 0x0A; omega)
    subst e
    exact unquote_simple 0x6E 0x0A (by decide) (by decide) t
  · have e : b = 0x0D := Fin.ext (by show b.val = 0x0D; omega)
    subst e
    exact unquote_simple 0x72 0x0D (by decide) (by decide) t
  · have e : b = 0x09 := Fin.ext (by show b.val = 0x09; omega)
    subst e
    exact unquote_simple 0x74 0x09 (by decide) (by decide) t
  · have hu : str "\\u00" = [0x5C, 0x75, 0x30, 0x30] := by decide
    rw [hu]
    have h0 : hexVal 0x30 = some 0 := by decide
    have := unquote_u 0x30 0x30 (hex.getD (b.val / 16) 0) (hex.getD (b.val % 16) 0) 0 0
      (b.val / 16) (b.val % 16) h0 h0 (hexVal_hex _ (by omega)) (hexVal_hex _ (by omega))
      (by omega) t
    simp only [List.cons_append, List.nil_append]
    rw [this]
    have hr : 0 * 4096 + 0 * 256 + b.val / 16 * 16 + b.val % 16 = b.val := by omega
    rw [hr]
    have he : EncodeRune b.val = [b] := by
      simp only [EncodeRune]
      rw [if_pos hb, byteOf_val]
    rw [he]
    rfl

theorem unquote_quote (t : GoString) : unquote (0x22 :: t) = some ([], t) := by
  rw [unquote.eq_def]
  simp only []
  rw [if_pos (by decide)]

theorem DecodeRune_ascii (b : Byte) (rest : GoString) (hb : b.val < 0x80) :
    DecodeRune (b :: rest) = (b.val, 1) := by
  simp only [DecodeRune]
  rw [if_pos hb]

theorem EncodeRune_FFFD : EncodeRune 0xFFFD = [0xEF, 0xBF, 0xBD] := by decide

theorem unquote_appendStringLoop (fuel : Nat) (s t : GoString) :
    unquote (appendStringLoop fuel s ++ 0x22 :: t) = some (coerceLoop fuel s, t) := by
  induction fuel generalizing s with
  | zero =>
    simp only [appendStringLoop, coerceLoop, List.nil_append]
    exact unquote_quote t
  | succ fuel ih =>
    rcases s with _ | ⟨b, rest⟩
    · simp only [appendStringLoop, coerceLoop, List.nil_append]
      exact unquote_quote t
    · simp only [appendStringLoop, coerceLoop]
      by_cases hb : b.val < 0x80
      · rw [if_pos hb, if_pos hb]
        by_cases hs : htmlSafeSet b = true
        · rw [if_pos hs, List.cons_append, unquote_safe b hs, ih rest]
          rfl
        · rw [if_neg hs, List.append_assoc,
            unquote_escapeByte b hb (by simpa using hs), ih rest]
          rfl
      · rw [if_neg hb, if_neg hb]
        have hb2 : 0x80 ≤ b.val := by omega
        have hspec := DecodeRune_spec b rest hb2
        generalize DecodeRune (b :: rest) = r at hspec
        by_cases herr : r.1 = RuneError ∧ r.2 = 1
        · rw [if_pos herr, if_pos herr]
          have hu : str "\\ufffd" = [0x5C, 0x75, 0x66, 0x66, 0x66, 0x64] := by decide
          rw [hu]
          simp only [List.cons_append, List.nil_append]
          have hf : hexVal 0x66 = some 15 := by decide
          have hd : hexVal 0x64 = some 13 := by decide
          rw [unquote_u 0x66 0x66 0x66 0x64 15 15 15 13 hf hf hf hd (by omega), ih rest]
          have hval : 15 * 4096 + 15 * 256 + 15 * 16 + 13 = 0xFFFD := by omega
          rw [hval, EncodeRune_FFFD]
          rfl
        · rw [if_neg herr, if_neg herr]
          have hspec := hspec herr
          by_cases hsep : r.1 = 0x2028 ∨ r.1 = 0x2029
          · rw [if_pos hsep]
            have hu : str "\\u202" = [0x5C, 0x75, 0x32, 0x30, 0x32] := by decide
            rw [hu]
            simp only [List.cons_append, List.nil_append, List.append_assoc]
            have h2 : hexVal 0x32 = some 2 := by decide
            have h0 : hexVal 0x30 = some 0 := by decide
            have hk : r.1 % 16 < 16 := by omega
            rw [unquote_u 0x32 0x30 0x32 (hex.getD (r.1 % 16) 0) 2 0 2 (r.1 % 16) h2 h0 h2
              (hexVal_hex _ hk) (by omega), ih]
            have hval : 2 * 4096 + 0 * 256 + 2 * 16 + r.1 % 16 = r.1 := by omega
            rw [hval, ← hspec.sep hsep]
            rfl
          · rw [if_neg hsep, List.append_assoc, unquote_copy _ hspec.high, ih]
            rfl

theorem coerceLoop_valid (fuel : Nat) (s : GoString) (hlen : s.length ≤ fuel)
    (hv : validLoop fuel s = true) : coerceLoop fuel s = s := by
  induction fuel generalizing s with
  | zero =>
    have hs : s = [] := List.length_eq_zero.mp (by omega)
    subst hs
    rfl
  | succ fuel ih =>
    rcases s with _ | ⟨b, rest⟩
    · rfl
    · simp only [List.length_cons] at hlen
      simp only [validLoop] at hv
      simp only [coerceLoop]
      by_cases hb : b.val < 0x80
      · rw [DecodeRune_ascii b rest hb] at hv
        have hne : ¬(b.val = RuneError) := by
          simp only [RuneError]
          omega
        have hv2 : validLoop fuel rest = true := by simpa [hne] using hv
        rw [if_pos hb, ih rest (by omega) hv2]
      · rw [if_neg hb]
        have hspec := DecodeRune_spec b rest (by omega)
        generalize DecodeRune (b :: rest) = r at hv hspec
        by_cases herr : r.1 = RuneError ∧ r.2 = 1
        · simp only [if_pos herr] at hv
          exact absurd hv (by simp)
        · simp only [if_neg herr] at hv
          have hw := (hspec herr).width
          have hdrop : ((b :: rest).drop r.2).length ≤ fuel := by
            simp only [List.length_drop, List.length_cons]
            omega
          rw [if_neg herr, ih _ hdrop hv, List.take_append_drop]

theorem coerce_valid (s : GoString) (h : ValidString s = true) : coerce s = s :=
  coerceLoop_valid s.length s (Nat.le_refl _) h

theorem unquote_appendString (s t : GoString) :
    unquote ((appendString s).tail ++ t) = some (coerce s, t) := by
  simp only [appendString, List.singleton_append, List.cons_append, List.tail_cons,
    List.append_assoc]
  exact unquote_appendStringLoop s.length s t

theorem appendString_head (s : GoString) :
    appendString s = 0x22 :: (appendString s).tail := by
  simp [appendString]

/-! ## Facts about JSON integers -/

theorem readDigits_digit (acc : Nat) (d : Byte) (t : GoString)
    (h : 0x30 ≤ d.val ∧ d.val ≤ 0x39) :
    readDigits acc (d :: t) = readDigits (acc * 10 + (d.val - 0x30)) t := by
  rw [readDigits, if_pos h]

theorem readDigits_stop (acc : Nat) (t : GoString)
    (h : ∀ d ∈ t.head?, ¬(0x30 ≤ d.val ∧ d.val ≤ 0x39)) :
    readDigits acc t = (acc, t) := by
  rcases t with _ | ⟨d, t⟩
  · rfl
  · rw [readDigits, if_neg (h d (by simp))]

theorem readDigits_formatNatAux (fuel n : Nat) (hn : n < fuel) (acc : Nat) (t : GoString) :
    readDigits acc (formatNatAux fuel n ++ t) =
      readDigits (acc * 10 ^ (formatNatAux fuel n).length + n) t := by
  induction fuel generalizing n acc t with
  | zero => omega
  | succ fuel ih =>
    simp only [formatNatAux]
    by_cases h10 : n < 10
    · rw [if_pos h10]
      have hd : (byteOf (48 + n)).val = 48 + n := by
        simp only [byteOf]
        omega
      rw [List.singleton_append, readDigits_digit _ _ _ (by rw [hd]; omega), hd]
      simp only [List.length_singleton, pow_one]
      congr 1
      omega
    · rw [if_neg h10]
      have hd : (byteOf (48 + n % 10)).val = 48 + n % 10 := by
        simp only [byteOf]
        omega
      rw [List.append_assoc, List.singleton_append, ih (n / 10) (by omega),
        readDigits_digit _ _ _ (by rw [hd]; omega), hd]
      simp only [List.length_append, List.length_singleton, pow_succ]
      congr 1
      have : acc * (10 ^ (formatNatAux fuel (n / 10)).length * 10) =
          acc * 10 ^ (formatNatAux fuel (n / 10)).length * 10 := by ring
      omega

theorem formatNatAux_head (fuel n : Nat) (hn : n < fuel) :
    ∃ d tl, formatNatAux fuel n = d :: tl ∧ 0x30 ≤ d.val ∧ d.val ≤ 0x39 := by
  induction fuel generalizing n with
  | zero => omega
  | succ fuel ih =>
    simp only [formatNatAux]
    by_cases h10 : n < 10
    · rw [if_pos h10]
      refine ⟨_, [], rfl, ?_⟩
      simp only [byteOf]
      omega
    · rw [if_neg h10]
      obtain ⟨d, tl, hd, hr⟩ := ih (n / 10) (by omega)
      exact ⟨d, tl ++ [byteOf (48 + n % 10)], by rw [hd]; rfl, hr⟩

theorem readNumber_formatInt (v : Int) (t : GoString) (ht : notDigitHead t) :
    readNumber (formatInt v ++ t) = some (v, t) := by
  obtain ⟨d, tl, hd, hr⟩ := formatNatAux_head (v.natAbs + 1) v.natAbs (by omega)
  have hrd := readDigits_formatNatAux (v.natAbs + 1) v.natAbs (by omega) 0 t
  rw [readDigits_stop _ t ht] at hrd
  simp only [Nat.zero_mul, Nat.zero_add] at hrd
  simp only [formatInt]
  by_cases hneg : v < 0
  · rw [if_pos hneg]
    simp only [List.singleton_append, List.cons_append, List.nil_append]
    rw [readNumber.eq_def]
    simp only []
    rw [if_pos (by decide)]
    have hrd2 := hrd
    rw [hd] at hrd2 ⊢
    simp only [List.cons_append] at hrd2 ⊢
    rw [if_pos hr, hrd2]
    simp only [Option.some.injEq, Prod.mk.injEq, and_true]
    omega
  · rw [if_neg hneg]
    have hrd2 := hrd
    rw [hd] at hrd2 ⊢
    simp only [List.cons_append] at hrd2 ⊢
    rw [readNumber.eq_def]
    simp only []
    rw [if_neg (by omega), if_pos hr, hrd2]
    simp only [Option.some.injEq, Prod.mk.injEq, and_true]
    omega

/-! ## Facts about JSON objects -/

theorem readValue_appendString (v t : GoString) :
    readValue (appendString v ++ t) = some (JSONValue.string (coerce v), t) := by
  rw [appendString_head, List.cons_append, readValue, if_pos (by decide),
    unquote_appendString v]
  rfl

theorem readValue_formatInt (n : Int) (t : GoString) (ht : notDigitHead t) :
    readValue (formatInt n ++ t) = some (JSONValue.number n, t) := by
  have hnum := readNumber_formatInt n t ht
  have hhead : ∃ d tl, formatInt n = d :: tl ∧ d.val ≠ 0x22 := by
    obtain ⟨d, tl, hd, hr⟩ := formatNatAux_head (n.natAbs + 1) n.natAbs (by omega)
    simp only [formatInt]
    split
    · exact ⟨0x2D, _, rfl, by decide⟩
    · exact ⟨d, tl, hd, by omega⟩
  obtain ⟨d, tl, hd, hq⟩ := hhead
  rw [hd] at hnum ⊢
  rw [List.cons_append] at hnum ⊢
  rw [readValue, if_neg hq, hnum]
  rfl

theorem readMembers_step (f : Nat) (k : GoString) (val : GoString) (v : JSONValue) (d : Byte)
    (rest : GoString) (hval : readValue (val ++ d :: rest) = some (v, d :: rest)) :
    readMembers (f + 1) (appendString k ++ (0x3A :: (val ++ d :: rest))) =
      if d.val = 0x7D then some ([(coerce k, v)], rest)
      else if d.val = 0x2C then
        (readMembers f rest).map (fun p => ((coerce k, v) :: p.1, p.2))
      else none := by
  rw [appendString_head, List.cons_append, readMembers, if_pos (by decide),
    unquote_appendString k]
  simp only []
  rw [if_pos (by decide), hval]

theorem ReadsAs_appendString (s : GoString) :
    ReadsAs (appendString s) (JSONValue.string (coerce s)) :=
  fun _ _ _ => readValue_appendString s _

theorem ReadsAs_formatInt (n : Int) : ReadsAs (formatInt n) (JSONValue.number n) := by
  intro d rest hd
  apply readValue_formatInt
  intro x hx
  simp only [List.head?_cons, Option.mem_def, Option.some.injEq] at hx
  subst hx
  omega

theorem readObject_three (k1 k2 k3 val1 val2 val3 : GoString) (v1 v2 v3 : JSONValue)
    (h1 : ReadsAs val1 v1) (h2 : ReadsAs val2 v2) (h3 : ReadsAs val3 v3) :
    readObject (0x7B :: (appendString k1 ++ (0x3A :: (val1 ++ 0x2C ::
      (appendString k2 ++ (0x3A :: (val2 ++ 0x2C ::
      (appendString k3 ++ (0x3A :: (val3 ++ [0x7D])))))))))) =
      some [(coerce k1, v1), (coerce k2, v2), (coerce k3, v3)] := by
  have key : ∀ f, readMembers (f + 3) (appendString k1 ++ (0x3A :: (val1 ++ 0x2C ::
      (appendString k2 ++ (0x3A :: (val2 ++ 0x2C ::
      (appendString k3 ++ (0x3A :: (val3 ++ [0x7D]))))))))) =
      some ([(coerce k1, v1), (coerce k2, v2), (coerce k3, v3)], []) := by
    intro f
    rw [readMembers_step (f + 2) k1 val1 v1 0x2C _ (h1 _ _ (Or.inl rfl)),
      if_neg (by decide), if_pos (by decide),
      readMembers_step (f + 1) k2 val2 v2 0x2C _ (h2 _ _ (Or.inl rfl)),
      if_neg (by decide), if_pos (by decide),
      readMembers_step f k3 val3 v3 0x7D [] (h3 _ _ (Or.inr rfl)),
      if_pos (by decide)]
    rfl
  generalize hX : (val1 ++ 0x2C :: (appendString k2 ++ (0x3A :: (val2 ++ 0x2C ::
      (appendString k3 ++ (0x3A :: (val3 ++ [0x7D]))))))) = X at key ⊢
  have hlen : 2 ≤ X.length := by
    rw [← hX]
    simp only [List.length_append, List.length_cons]
    omega
  rw [appendString_head k1] at key ⊢
  rw [List.cons_append] at key ⊢
  rw [readObject, if_pos (by decide), if_neg (by decide)]
  have hf : ((appendString k1).tail ++ 0x3A :: X).length + 1 =
      (((appendString k1).tail ++ 0x3A :: X).length - 2) + 3 := by
    simp only [List.length_append, List.length_cons]
    omega
  rw [hf, key]

theorem readObject_marshalHeader (h : jwtHeader) :
    readObject (marshalHeader h).1 =
      some [(str "alg", JSONValue.string (coerce h.Alg)),
        (str "typ", JSONValue.string (coerce h.Typ)),
        (str "kid", JSONValue.string (coerce h.KID))] := by
  have e1 : str "\x7b\"alg\":" = 0x7B :: (appendString (str "alg") ++ [0x3A]) := by decide
  have e2 : str ",\"typ\":" = 0x2C :: (appendString (str "typ") ++ [0x3A]) := by decide
  have e3 : str ",\"kid\":" = 0x2C :: (appendString (str "kid") ++ [0x3A]) := by decide
  have e4 : str "\x7d" = [0x7D] := by decide
  have c1 : coerce (str "alg") = str "alg" := by decide
  have c2 : coerce (str "typ") = str "typ" := by decide
  have c3 : coerce (str "kid") = str "kid" := by decide
  have := readObject_three (str "alg") (str "typ") (str "kid") (appendString h.Alg)
    (appendString h.Typ) (appendString h.KID) _ _ _ (ReadsAs_appendString h.Alg)
    (ReadsAs_appendString h.Typ) (ReadsAs_appendString h.KID)
  rw [c1, c2, c3] at this
  rw [← this]
  simp only [marshalHeader, e1, e2, e3, e4, List.append_assoc, List.cons_append,
    List.nil_append]

theorem readObject_marshalClaims (c : jwtClaims) :
    readObject (marshalClaims c).1 =
      some [(str "sub", JSONValue.string (coerce c.Sub)),
        (str "iat", JSONValue.number c.Iat), (str "exp", JSONValue.number c.Exp)] := by
  have e1 : str "\x7b\"sub\":" = 0x7B :: (appendString (str "sub") ++ [0x3A]) := by decide
  have e2 : str ",\"iat\":" = 0x2C :: (appendString (str "iat") ++ [0x3A]) := by decide
  have e3 : str ",\"exp\":" = 0x2C :: (appendString (str "exp") ++ [0x3A]) := by decide
  have e4 : str "\x7d" = [0x7D] := by decide
  have c1 : coerce (str "sub") = str "sub" := by decide
  have c2 : coerce (str "iat") = str "iat" := by decide
  have c3 : coerce (str "exp") = str "exp" := by decide
  have := readObject_three (str "sub") (str "iat") (str "exp") (appendString c.Sub)
    (formatInt c.Iat) (formatInt c.Exp) _ _ _ (ReadsAs_appendString c.Sub)
    (ReadsAs_formatInt c.Iat) (ReadsAs_formatInt c.Exp)
  rw [c1, c2, c3] at this
  rw [← this]
  simp only [marshalClaims, e1, e2, e3, e4, List.append_assoc, List.cons_append,
    List.nil_append]

/-! ## Facts about tokens -/

theorem Unix_Add_five (now : Time) : (now.Add (5 * Minute)).Unix = now.Unix + 300 := by
  simp only [Time.Add, Time.Unix, Minute]
  omega

theorem Unix_Add_minus_five (now : Time) : (now.Add (-5 * Minute)).Unix = now.Unix - 300 := by
  simp only [Time.Add, Time.Unix, Minute]
  omega

theorem encodeAndSign_eq (c : Crypto) (signs : Nat) (h : jwtHeader) (cl : jwtClaims)
    (priv : Option PrivateKey) :
    encodeAndSign c signs h cl priv =
      match signRS256 c signs priv (signingInput h cl) with
      | ((_, some err), s) => (([], some err), s)
      | ((sig, none), s) => ((signingInput h cl ++ str "." ++ EncodeToString sig, none), s) :=
  rfl

theorem encodeAndSign_ok (c : Crypto) (signs : Nat) (h : jwtHeader) (cl : jwtClaims)
    (priv : Option PrivateKey) (tok : GoString) (s : Nat)
    (hok : encodeAndSign c signs h cl priv = ((tok, none), s)) :
    ∃ sig, signRS256 c signs priv (signingInput h cl) = ((sig, none), s) ∧
      tok = signingInput h cl ++ str "." ++ EncodeToString sig := by
  rw [encodeAndSign_eq] at hok
  generalize signRS256 c signs priv (signingInput h cl) = r at hok
  obtain ⟨⟨sig, err⟩, s1⟩ := r
  cases err with
  | some e => simp at hok
  | none =>
    simp only [Prod.mk.injEq, and_true] at hok
    exact ⟨sig, by rw [hok.2], hok.1.symm⟩

theorem decodeSegment_EncodeToString (json : GoString) :
    decodeSegment (EncodeToString json) = readObject json := by
  simp only [decodeSegment, DecodeString_EncodeToString]

theorem DecodesTo_join (h : jwtHeader) (cl : jwtClaims) (sig : List Byte) :
    DecodesTo (signingInput h cl ++ str "." ++ EncodeToString sig)
      [(str "alg", JSONValue.string (coerce h.Alg)), (str "typ", JSONValue.string (coerce h.Typ)),
        (str "kid", JSONValue.string (coerce h.KID))]
      [(str "sub", JSONValue.string (coerce cl.Sub)), (str "iat", JSONValue.number cl.Iat),
        (str "exp", JSONValue.number cl.Exp)] := by
  refine ⟨_, _, _, ParseJWTParts_join _ _ sig, ?_, ?_⟩
  · rw [decodeSegment_EncodeToString, readObject_marshalHeader]
  · rw [decodeSegment_EncodeToString, readObject_marshalClaims]

theorem IssueJWT_DecodesTo (c : Crypto) (now : Time) (signs : Nat) (key : KeyPair)
    (expired : Bool) (tok : GoString) (s : Nat)
    (hok : IssueJWT c now signs key expired = ((tok, none), s)) :
    DecodesTo tok (headerObject (coerce key.KID))
      (claimsObject now.Unix (if expired then now.Unix - 300 else now.Unix + 300)) := by
  simp only [IssueJWT] at hok
  obtain ⟨sig, -, htok⟩ := encodeAndSign_ok _ _ _ _ _ _ _ hok
  rw [htok]
  have hc1 : coerce (str "RS256") = str "RS256" := by decide
  have hc2 : coerce (str "JWT") = str "JWT" := by decide
  have hc3 : coerce (str "user") = str "user" := by decide
  have := DecodesTo_join { Alg := str "RS256", Typ := str "JWT", KID := key.KID }
    { Sub := str "user", Iat := now.Unix,
      Exp := if expired then (now.Add (-5 * Minute)).Unix else (now.Add (5 * Minute)).Unix } sig
  simp only [hc1, hc2, hc3, Unix_Add_five, Unix_Add_minus_five] at this
  simp only [Unix_Add_five, Unix_Add_minus_five, headerObject, claimsObject]
  exact this

/-! ## C1: the discovery filter -/

theorem handleJWKS_panic_iff (now : Time) (ks : KeyStore) :
    handleJWKS now ks = Outcome.panic ↔ ∃ kp ∈ unexpired now ks, modulus kp = none := by
  obtain ⟨⟨kidA, expA, privA⟩, ⟨kidE, expE, privE⟩⟩ := ks
  by_cases hA : now.ns < expA.ns <;> by_cases hE : now.ns < expE.ns <;>
    rcases privA with _ | ⟨⟨_ | nA, eA⟩, dA⟩ <;> rcases privE with _ | ⟨⟨_ | nE, eE⟩, dE⟩ <;>
    simp [handleJWKS, Time.Before, unexpired, modulus, hA, hE]

/-- Claim C1, counterexample. A store whose active key pair is unexpired at time
0 but has no private key: `handleJWKS` panics on reading the public key
through the nil pointer, so it does not return the entry of a key pair whose
`ExpiresAt` is strictly after `now`. The same happens where the private key is
present but its modulus is nil (the zero value `rsa.PrivateKey{}`). -/
theorem C1_counterexample :
    (Time.mk 0).Before (Time.mk 1) = true ∧
    handleJWKS (Time.mk 0)
      { Active := { KID := str "a", ExpiresAt := Time.mk 1, Priv := none },
        Expired := { KID := str "b", ExpiresAt := Time.mk (-1), Priv := none } } =
      Outcome.panic ∧
    handleJWKS (Time.mk 0)
      { Active := { KID := str "a", ExpiresAt := Time.mk 1,
                    Priv := some { PublicKey := { N := none, E := 0 }, D := 0 } },
        Expired := { KID := str "b", ExpiresAt := Time.mk (-1), Priv := none } } =
      Outcome.panic := by
  decide

/-- Claim C1, amended. For every key store and every time `now` such that each
key pair whose `ExpiresAt` is strictly after `now` has a modulus (its `Priv` is
not nil and the `N` of that key is not nil), `handleJWKS` answers 200 with
exactly the entries of those key pairs: one entry per unexpired key pair, the
active one (present iff `now < Active.ExpiresAt`) before the expired one
(present iff `now < Expired.ExpiresAt`), and the empty list, not an error,
when neither qualifies; a key pair whose `ExpiresAt` equals `now` contributes
nothing. The condition is the least one: by `handleJWKS_panic_iff` the handler
panics exactly when it fails. -/
theorem C1_discovery (ks : KeyStore) (now : Time)
    (hpub : ∀ kp ∈ unexpired now ks, modulus kp ≠ none) :
    handleJWKS now ks = Outcome.response (okJSON (Body.jwks ⟨discoveryEntries now ks⟩)) ∧
    unexpired now ks =
      (if now.ns < ks.Active.ExpiresAt.ns then [ks.Active] else []) ++
      (if now.ns < ks.Expired.ExpiresAt.ns then [ks.Expired] else []) ∧
    (discoveryEntries now ks).map (fun k => k.KID) = (unexpired now ks).map (fun kp => kp.KID) ∧
    (discoveryEntries now ks = [] ↔
      ¬(now.ns < ks.Active.ExpiresAt.ns) ∧ ¬(now.ns < ks.Expired.ExpiresAt.ns)) ∧
    (ks.Active.ExpiresAt = now → ks.Expired.ExpiresAt = now → discoveryEntries now ks = []) := by
  have hA1 : now.ns < ks.Active.ExpiresAt.ns → modulus ks.Active ≠ none := fun h =>
    hpub _ (by simp [unexpired, h])
  have hE1 : now.ns < ks.Expired.ExpiresAt.ns → modulus ks.Expired ≠ none := fun h =>
    hpub _ (by simp [unexpired, h])
  clear hpub
  obtain ⟨⟨kidA, expA, privA⟩, ⟨kidE, expE, privE⟩⟩ := ks
  simp only at hA1 hE1
  refine ⟨?_, ?_, ?_, ?_, ?_⟩
  · by_cases hA : now.ns < expA.ns <;> by_cases hE : now.ns < expE.ns <;>
      rcases privA with _ | ⟨⟨_ | nA, eA⟩, dA⟩ <;> rcases privE with _ | ⟨⟨_ | nE, eE⟩, dE⟩ <;>
      first
      | exact absurd rfl (hA1 hA)
      | exact absurd rfl (hE1 hE)
      | simp [handleJWKS, Time.Before, okJSON, discoveryEntries, unexpired, publicEntry, hA, hE]
  · by_cases hA : now.ns < expA.ns <;> by_cases hE : now.ns < expE.ns <;>
      simp [unexpired, hA, hE]
  · by_cases hA : now.ns < expA.ns <;> by_cases hE : now.ns < expE.ns <;>
      rcases privA with _ | ⟨⟨_ | nA, eA⟩, dA⟩ <;> rcases privE with _ | ⟨⟨_ | nE, eE⟩, dE⟩ <;>
      first
      | exact absurd rfl (hA1 hA)
      | exact absurd rfl (hE1 hE)
      | simp [discoveryEntries, unexpired, publicEntry, rsaPublicToJWK, hA, hE]
  · by_cases hA : now.ns < expA.ns <;> by_cases hE : now.ns < expE.ns <;>
      rcases privA with _ | ⟨⟨_ | nA, eA⟩, dA⟩ <;> rcases privE with _ | ⟨⟨_ | nE, eE⟩, dE⟩ <;>
      first
      | exact absurd rfl (hA1 hA)
      | exact absurd rfl (hE1 hE)
      | simp [discoveryEntries, unexpired, publicEntry, hA, hE]
  · intro h1 h2
    simp only at h1 h2
    subst h1
    subst h2
    simp [discoveryEntries, unexpired]

/-- Claim C1, witness. The amended statement at a store with both key pairs
unexpired at time 0. -/
theorem C1_discovery_witness :
    handleJWKS (Time.mk 0)
      { Active := { KID := str "a", ExpiresAt := Time.mk 5,
                    Priv := some ⟨⟨some 77, 65537⟩, 5⟩ },
        Expired := { KID := str "b", ExpiresAt := Time.mk 3,
                     Priv := some ⟨⟨some 91, 3⟩, 7⟩ } } =
      Outcome.response (okJSON (Body.jwks ⟨[rsaPublicToJWK (str "a") 77 65537,
        rsaPublicToJWK (str "b") 91 3]⟩)) :=
  (C1_discovery _ (Time.mk 0) (by decide)).1

/-! ## Facts about `handleAuth` -/

theorem handleAuth_active (c : Crypto) (now : Time) (signs : Nat) (r : Request) (ks : KeyStore)
    (hq : ¬hasExpired r.RawQuery) :
    handleAuth c now signs r ks =
      match IssueJWT c now signs ks.Active false with
      | ((_, some _), s) => (httpError (str "could not create token") 500, s)
      | ((token, none), s) => (okJSON (Body.token token), s) := by
  simp only [hasExpired, ne_eq, not_not] at hq
  simp only [handleAuth, hq]
  rfl

theorem handleAuth_expired (c : Crypto) (now : Time) (signs : Nat) (r : Request) (ks : KeyStore)
    (hq : hasExpired r.RawQuery) :
    handleAuth c now signs r ks =
      match IssueJWT c now signs ks.Expired true with
      | ((_, some _), s) => (httpError (str "could not create token") 500, s)
      | ((token, none), s) => (okJSON (Body.token token), s) := by
  simp only [hasExpired, ne_eq] at hq
  obtain ⟨v, hv⟩ := Option.ne_none_iff_exists'.mp hq
  simp only [handleAuth, hv]
  rfl

theorem IssueJWT_result (c : Crypto) (now : Time) (signs : Nat) (key : KeyPair) (expired : Bool) :
    IssueJWT c now signs key expired =
      match signRS256 c signs key.Priv
        (signingInput { Alg := str "RS256", Typ := str "JWT", KID := key.KID }
          { Sub := str "user", Iat := now.Unix,
            Exp := if expired then now.Unix - 300 else now.Unix + 300 }) with
      | ((_, some err), s) => (([], some err), s)
      | ((sig, none), s) =>
        ((signingInput { Alg := str "RS256", Typ := str "JWT", KID := key.KID }
            { Sub := str "user", Iat := now.Unix,
              Exp := if expired then now.Unix - 300 else now.Unix + 300 } ++
          str "." ++ EncodeToString sig, none), s) := by
  simp only [IssueJWT, encodeAndSign_eq, Unix_Add_five, Unix_Add_minus_five]

/-! ## C2: one entry after startup -/

/-- Claim C2. For every key store built by `NewKeyStore` at creation time `t0`
(so that `Active.ExpiresAt = t0 + 24h` and `Expired.ExpiresAt = t0 - 24h`) and
every request time `now` with `t0 ≤ now < t0 + 24h`, `handleJWKS` answers 200
with exactly one key entry, whose `kid` is `Active.KID`. -/
theorem C2_single_entry (genActive genExpired : Except GoError GeneratedKey) (t0 now : Time)
    (rndActive rndExpired : Fin 16 → Byte) (ks : KeyStore)
    (hks : NewKeyStore genActive genExpired t0 rndActive rndExpired = (some ks, none))
    (h0 : t0.ns ≤ now.ns) (h1 : now.ns < t0.ns + 24 * 60 * 60 * 1000000000) :
    ks.Active.ExpiresAt.ns = t0.ns + 24 * 60 * 60 * 1000000000 ∧
    ks.Expired.ExpiresAt.ns = t0.ns - 24 * 60 * 60 * 1000000000 ∧
    ∃ k, handleJWKS now ks = Outcome.response (okJSON (Body.jwks ⟨[k]⟩)) ∧
      k.KID = ks.Active.KID := by
  rcases genActive with e | pa
  · simp [NewKeyStore] at hks
  · rcases genExpired with e | pe
    · simp [NewKeyStore] at hks
    · simp only [NewKeyStore, Prod.mk.injEq, Option.some.injEq, and_true] at hks
      subst hks
      have hA : now.ns < t0.ns + 24 * Hour := by
        simp only [Hour, Minute]
        omega
      have hE : ¬(now.ns < t0.ns + -24 * Hour) := by
        simp only [Hour, Minute]
        omega
      refine ⟨?_, ?_, ?_⟩
      · simp only [Time.Add, Hour, Minute]
        omega
      · simp only [Time.Add, Hour, Minute]
        omega
      · refine ⟨rsaPublicToJWK (newKID rndActive) pa.N pa.E, ?_, rfl⟩
        simp only [handleJWKS, Time.Before, Time.Add, hA, hE, okJSON, decide_True, decide_False,
          if_true, if_false, List.nil_append, Bool.false_eq_true, GeneratedKey.toPrivateKey]

/-- Claim C2, witness. A store built at `t0 = 0`, asked one second later. -/
theorem C2_single_entry_witness :
    ∃ k, handleJWKS (Time.mk 1000000000)
        { Active := { KID := newKID (fun _ => 1), ExpiresAt := (Time.mk 0).Add (24 * Hour),
                      Priv := some ⟨⟨some 77, 65537⟩, 5⟩ },
          Expired := { KID := newKID (fun _ => 2), ExpiresAt := (Time.mk 0).Add (-24 * Hour),
                       Priv := some ⟨⟨some 91, 3⟩, 7⟩ } } =
        Outcome.response (okJSON (Body.jwks ⟨[k]⟩)) ∧ k.KID = newKID (fun _ => 1) :=
  (C2_single_entry (.ok ⟨77, 65537, 5⟩) (.ok ⟨91, 3, 7⟩) (Time.mk 0) (Time.mk 1000000000)
    (fun _ => 1) (fun _ => 2) _ rfl (by decide) (by decide)).2.2

/-! ## C7: the public-key encoder -/

theorem foldl_bytes (acc : Nat) (bs : List Byte) :
    bs.foldl (fun a b => a * 256 + b.val) acc = acc * 256 ^ bs.length + bytesToNat bs := by
  induction bs generalizing acc with
  | nil => simp [bytesToNat]
  | cons b bs ih =>
    simp only [List.foldl_cons, List.length_cons, bytesToNat]
    rw [ih (acc * 256 + b.val), ih (0 * 256 + b.val)]
    simp only [bytesToNat, pow_succ]
    ring

theorem bytesToNat_cons (b : Byte) (bs : List Byte) :
    bytesToNat (b :: bs) = b.val * 256 ^ bs.length + bytesToNat bs := by
  have := foldl_bytes (0 * 256 + b.val) bs
  simp only [Nat.zero_mul, Nat.zero_add] at this
  simpa [bytesToNat] using this

theorem bytesToNat_lt (bs : List Byte) : bytesToNat bs < 256 ^ bs.length := by
  induction bs with
  | nil => simp [bytesToNat]
  | cons b bs ih =>
    rw [bytesToNat_cons, List.length_cons, pow_succ]
    have hb := b.isLt
    have : b.val * 256 ^ bs.length ≤ 255 * 256 ^ bs.length :=
      Nat.mul_le_mul_right _ (by omega)
    omega

theorem natBytes_minimal (n : Nat) (bs : List Byte) (h : bytesToNat bs = n) :
    (natBytes n).length ≤ bs.length := by
  rcases Nat.eq_zero_or_pos n with h0 | hpos
  · subst h0
    simp [natBytes, natBytesAux]
  · obtain ⟨b, tl, hb, hb0⟩ := natBytes_head n hpos
    have hval := bytesToNat_natBytes n
    rw [hb, bytesToNat_cons] at hval
    have hlt := bytesToNat_lt bs
    rw [h] at hlt
    have h1 : 256 ^ tl.length ≤ b.val * 256 ^ tl.length := Nat.le_mul_of_pos_left _ (by omega)
    have h2 : 256 ^ tl.length < 256 ^ bs.length := by omega
    have h3 : tl.length < bs.length := (Nat.pow_lt_pow_iff_right (by decide)).mp h2
    rw [hb, List.length_cons]
    omega

/-- The encoding of a positive number: unpadded base64url of the big-endian
bytes without a leading zero byte, which no shorter byte string denotes. -/
theorem encodes_minimal (n : Int) (hn : 0 < n) :
    ∃ bs, EncodeToString (bigBytes n) = EncodeToString bs ∧
      DecodeString (EncodeToString (bigBytes n)) = some bs ∧
      (∀ b ∈ bs.head?, b.val ≠ 0) ∧ (bytesToNat bs : Int) = n ∧
      (∀ bs2 : List Byte, (bytesToNat bs2 : Int) = n → bs.length ≤ bs2.length) := by
  refine ⟨bigBytes n, rfl, DecodeString_EncodeToString _, ?_, ?_, ?_⟩
  · obtain ⟨b, tl, hb, hb0⟩ := natBytes_head n.natAbs (by omega)
    intro x hx
    simp only [bigBytes, hb, List.head?_cons, Option.mem_def, Option.some.injEq] at hx
    subst hx
    exact hb0
  · simp only [bigBytes, bytesToNat_natBytes]
    omega
  · intro bs2 h2
    exact natBytes_minimal n.natAbs bs2 (by omega)

/-- Claim C7. For every identifier `kid`, every modulus `N > 0` and every public
exponent `e > 0`, `rsaPublicToJWK kid N e` has `kty = "RSA"`, `use = "sig"`,
`alg = "RS256"`, `kid = kid`, and `n` and `e` are each the unpadded base64url
encoding (alphabet characters only) of the big-endian minimal-length bytes of
the number: the decoded bytes have no leading zero byte, denote the number when
read big-endian, and no byte string denoting the number is shorter. For
`e = 65537` the `e` field is `"AQAB"`. -/
theorem C7_public_key_entry (kid : GoString) (N e : Int) (hN : 0 < N) (he : 0 < e) :
    (rsaPublicToJWK kid N e).KTY = str "RSA" ∧
    (rsaPublicToJWK kid N e).Use = str "sig" ∧
    (rsaPublicToJWK kid N e).ALG = str "RS256" ∧
    (rsaPublicToJWK kid N e).KID = kid ∧
    (∃ bs, (rsaPublicToJWK kid N e).N = EncodeToString bs ∧
      DecodeString (rsaPublicToJWK kid N e).N = some bs ∧
      (∀ b ∈ bs.head?, b.val ≠ 0) ∧ (bytesToNat bs : Int) = N ∧
      (∀ bs2 : List Byte, (bytesToNat bs2 : Int) = N → bs.length ≤ bs2.length)) ∧
    (∃ bs, (rsaPublicToJWK kid N e).E = EncodeToString bs ∧
      DecodeString (rsaPublicToJWK kid N e).E = some bs ∧
      (∀ b ∈ bs.head?, b.val ≠ 0) ∧ (bytesToNat bs : Int) = e ∧
      (∀ bs2 : List Byte, (bytesToNat bs2 : Int) = e → bs.length ≤ bs2.length)) ∧
    (∀ ch ∈ (rsaPublicToJWK kid N e).N, isBase64URL ch = true) ∧
    (∀ ch ∈ (rsaPublicToJWK kid N e).E, isBase64URL ch = true) ∧
    (e = 65537 → (rsaPublicToJWK kid N e).E = str "AQAB") := by
  refine ⟨rfl, rfl, rfl, rfl, encodes_minimal N hN, encodes_minimal e he,
    EncodeToString_alphabet _, EncodeToString_alphabet _, ?_⟩
  intro h
  subst h
  show EncodeToString (bigBytes 65537) = str "AQAB"
  decide

/-- Claim C7, witness. The entry for the modulus 3233 and the exponent 65537. -/
theorem C7_public_key_entry_witness :
    (rsaPublicToJWK (str "k1") 3233 65537).N = str "DKE" ∧
    (rsaPublicToJWK (str "k1") 3233 65537).E = str "AQAB" ∧
    DecodeString (str "DKE") = some [0x0C, 0xA1] ∧ bytesToNat [0x0C, 0xA1] = 3233 :=
  ⟨by decide, (C7_public_key_entry (str "k1") 3233 65537 (by decide) (by decide)).2.2.2.2.2.2.2.2 rfl,
    by decide, by decide⟩

/-! ## C6: the claims of a token -/

/-- Claim C6. For every current time `now` (with any sub-second part:
`now.Unix` is the whole number of seconds at or below it), every key pair and
either mode, `IssueJWT` serialises and signs the claims with `sub = "user"`,
`iat = now.Unix` and `exp = iat + 300` in normal mode, `exp = iat - 300` in
expired mode: truncating `now` plus or minus 5 minutes to seconds gives the
same integer as adding or subtracting 300 from `now` truncated to seconds. A
token that is issued carries exactly these claims. -/
theorem C6_claims (c : Crypto) (now : Time) (signs : Nat) (key : KeyPair) (expired : Bool) :
    IssueJWT c now signs key expired =
      encodeAndSign c signs { Alg := str "RS256", Typ := str "JWT", KID := key.KID }
        { Sub := str "user", Iat := now.Unix,
          Exp := if expired then now.Unix - 300 else now.Unix + 300 } key.Priv ∧
    (now.Unix * 1000000000 ≤ now.ns ∧ now.ns < (now.Unix + 1) * 1000000000) ∧
    (now.Add (5 * Minute)).Unix = now.Unix + 300 ∧
    (now.Add (-5 * Minute)).Unix = now.Unix - 300 ∧
    (∀ tok s, IssueJWT c now signs key expired = ((tok, none), s) →
      DecodesTo tok (headerObject (coerce key.KID))
        (claimsObject now.Unix (if expired then now.Unix - 300 else now.Unix + 300))) := by
  refine ⟨?_, ?_, Unix_Add_five now, Unix_Add_minus_five now, ?_⟩
  · simp only [IssueJWT, Unix_Add_five, Unix_Add_minus_five]
  · simp only [Time.Unix]
    omega
  · intro tok s h
    exact IssueJWT_DecodesTo c now signs key expired tok s h

/-! ## C9: signing failures -/

/-- Claim C9. For every key pair and either mode, `IssueJWT` returns an error
exactly when the signing step fails, that is when the private key is nil or
the signing primitive, called on the digest of the signing input, reports
failure; the token returned with an error is the empty string; in particular
every key pair with a nil private key fails. When `IssueJWT` fails for the key
pair that `handleAuth` selects, `handleAuth` answers with status 500 and the
plain-text body `could not create token`, no token; the signing primitive is
invoked at most once per call (no retry). -/
theorem C9_signing_failure (c : Crypto) (now : Time) (signs : Nat) (key : KeyPair)
    (expired : Bool) :
    ((IssueJWT c now signs key expired).1.2 ≠ none ↔
      (key.Priv = none ∨ ∃ p err, key.Priv = some p ∧
        c.SignPKCS1v15 signs p
          (c.Sum256 (signingInput { Alg := str "RS256", Typ := str "JWT", KID := key.KID }
            { Sub := str "user", Iat := now.Unix,
              Exp := if expired then now.Unix - 300 else now.Unix + 300 })) =
          Except.error err)) ∧
    ((IssueJWT c now signs key expired).1.2 ≠ none → (IssueJWT c now signs key expired).1.1 = []) ∧
    (key.Priv = none → (IssueJWT c now signs key expired).1.2 ≠ none ∧
      (IssueJWT c now signs key expired).2 = signs) ∧
    (IssueJWT c now signs key expired).2 ≤ signs + 1 ∧
    (∀ (r : Request) (ks : KeyStore),
      key = (if hasExpired r.RawQuery then ks.Expired else ks.Active) →
      expired = decide (hasExpired r.RawQuery) →
      (IssueJWT c now signs key expired).1.2 ≠ none →
      handleAuth c now signs r ks =
        ({ status := 500, contentType := some (str "text/plain; charset=utf-8"),
           body := Body.text (str "could not create token\n") },
         (IssueJWT c now signs key expired).2)) := by
  have hIss := IssueJWT_result c now signs key expired
  generalize signingInput { Alg := str "RS256", Typ := str "JWT", KID := key.KID }
    { Sub := str "user", Iat := now.Unix,
      Exp := if expired then now.Unix - 300 else now.Unix + 300 } = input at hIss ⊢
  have hauth : ∀ (t : GoString) (e : GoError) (s : Nat),
      IssueJWT c now signs key expired = ((t, some e), s) →
      ∀ (r : Request) (ks : KeyStore),
      key = (if hasExpired r.RawQuery then ks.Expired else ks.Active) →
      expired = decide (hasExpired r.RawQuery) →
      handleAuth c now signs r ks =
        ({ status := 500, contentType := some (str "text/plain; charset=utf-8"),
           body := Body.text (str "could not create token\n") }, s) := by
    intro t e s hres r ks hkey hmode
    by_cases hq : hasExpired r.RawQuery
    · rw [handleAuth_expired c now signs r ks hq]
      simp only [hq, if_true, decide_True] at hkey hmode
      rw [← hkey, ← hmode, hres]
      rfl
    · rw [handleAuth_active c now signs r ks hq]
      simp only [hq, if_false, decide_False] at hkey hmode
      rw [← hkey, ← hmode, hres]
      rfl
  rcases hp : key.Priv with _ | p
  · rw [hp] at hIss
    simp only [signRS256] at hIss
    rw [hIss]
    refine ⟨by simp, by simp, by simp, by simp, ?_⟩
    intro r ks hkey hmode _
    exact hauth _ _ _ hIss r ks hkey hmode
  · rw [hp] at hIss
    simp only [signRS256] at hIss
    rcases hs : c.SignPKCS1v15 signs p (c.Sum256 input) with err | sig
    · rw [hs] at hIss
      simp only at hIss
      rw [hIss]
      refine ⟨by simp [hs], by simp, by simp, by simp, ?_⟩
      intro r ks hkey hmode _
      exact hauth _ _ _ hIss r ks hkey hmode
    · rw [hs] at hIss
      simp only at hIss
      rw [hIss]
      refine ⟨by simp [hs], by simp, by simp, by simp, ?_⟩
      intro r ks hkey hmode hne
      simp at hne

/-! ## C10: methods that are not allowed -/

/-- Claim C10. For every method other than GET, a request to
`/.well-known/jwks.json` is answered with status 405 and an empty body,
whatever the key store and the time (so also where the discovery logic would
panic); for every method other than POST, a request to `/auth` is answered with
status 405 and an empty body, and the signing primitive is not invoked. In
particular `GET /auth` and `POST /.well-known/jwks.json` return 405. -/
theorem C10_method_not_allowed (ks : KeyStore) (c : Crypto) (now : Time) (signs : Nat) :
    (∀ r : Request, r.Path = str "/.well-known/jwks.json" → r.Method ≠ str "GET" →
      ServeHTTP (RegisterRoutes ks) c now signs r =
        (Outcome.response { status := 405, contentType := none, body := Body.empty }, signs)) ∧
    (∀ r : Request, r.Path = str "/auth" → r.Method ≠ str "POST" →
      ServeHTTP (RegisterRoutes ks) c now signs r =
        (Outcome.response { status := 405, contentType := none, body := Body.empty }, signs)) ∧
    (∀ q, ServeHTTP (RegisterRoutes ks) c now signs ⟨str "GET", str "/auth", q⟩ =
        (Outcome.response { status := 405, contentType := none, body := Body.empty }, signs)) ∧
    (∀ q, ServeHTTP (RegisterRoutes ks) c now signs
        ⟨str "POST", str "/.well-known/jwks.json", q⟩ =
        (Outcome.response { status := 405, contentType := none, body := Body.empty }, signs)) := by
  have hne : (str "/auth" == str "/.well-known/jwks.json") = false := by decide
  have h1 : ∀ r : Request, r.Path = str "/.well-known/jwks.json" → r.Method ≠ str "GET" →
      ServeHTTP (RegisterRoutes ks) c now signs r =
        (Outcome.response { status := 405, contentType := none, body := Body.empty }, signs) := by
    intro r hp hm
    simp only [ServeHTTP, RegisterRoutes, hp, List.lookup, beq_self_eq_true]
    rw [if_pos hm]
  have h2 : ∀ r : Request, r.Path = str "/auth" → r.Method ≠ str "POST" →
      ServeHTTP (RegisterRoutes ks) c now signs r =
        (Outcome.response { status := 405, contentType := none, body := Body.empty }, signs) := by
    intro r hp hm
    simp only [ServeHTTP, RegisterRoutes, hp, List.lookup, hne, beq_self_eq_true]
    rw [if_pos hm]
  refine ⟨h1, h2, fun q => h2 _ rfl ?_, fun q => h1 _ rfl ?_⟩
  · show str "GET" ≠ str "POST"
    decide
  · show str "POST" ≠ str "GET"
    decide

/-! ## Facts about issuing through `handleAuth` -/

theorem IssueJWT_ok_of_no_error (c : Crypto) (now : Time) (signs : Nat) (key : KeyPair)
    (expired : Bool) (h : (IssueJWT c now signs key expired).1.2 = none) :
    ∃ tok s, IssueJWT c now signs key expired = ((tok, none), s) := by
  rcases hres : IssueJWT c now signs key expired with ⟨⟨tok, err⟩, s⟩
  rw [hres] at h
  simp only at h
  subst h
  exact ⟨tok, s, rfl⟩

theorem auth_active_token (c : Crypto) (ks : KeyStore) (now : Time) (signs : Nat) (r : Request)
    (hq : ¬hasExpired r.RawQuery) (hsig : (IssueJWT c now signs ks.Active false).1.2 = none) :
    ∃ tok s, handleAuth c now signs r ks = (okJSON (Body.token tok), s) ∧
      DecodesTo tok (headerObject (coerce ks.Active.KID))
        (claimsObject now.Unix (now.Unix + 300)) := by
  obtain ⟨tok, s, hres⟩ := IssueJWT_ok_of_no_error c now signs ks.Active false hsig
  refine ⟨tok, s, ?_, ?_⟩
  · rw [handleAuth_active c now signs r ks hq, hres]
  · simpa using IssueJWT_DecodesTo c now signs ks.Active false tok s hres

theorem auth_expired_token (c : Crypto) (ks : KeyStore) (now : Time) (signs : Nat) (r : Request)
    (hq : hasExpired r.RawQuery) (hsig : (IssueJWT c now signs ks.Expired true).1.2 = none) :
    ∃ tok s, handleAuth c now signs r ks = (okJSON (Body.token tok), s) ∧
      DecodesTo tok (headerObject (coerce ks.Expired.KID))
        (claimsObject now.Unix (now.Unix - 300)) := by
  obtain ⟨tok, s, hres⟩ := IssueJWT_ok_of_no_error c now signs ks.Expired true hsig
  refine ⟨tok, s, ?_, ?_⟩
  · rw [handleAuth_expired c now signs r ks hq, hres]
  · simpa using IssueJWT_DecodesTo c now signs ks.Expired true tok s hres

theorem sampleCrypto_no_error (now : Time) (signs : Nat) (key : KeyPair) (expired : Bool)
    (p : PrivateKey) (hp : key.Priv = some p) :
    (IssueJWT sampleCrypto now signs key expired).1.2 = none := by
  rw [IssueJWT_result, hp]
  rfl

theorem DecodesTo_unique (tok : GoString) (h1 h2 c1 c2 : JSONObject)
    (ha : DecodesTo tok h1 c1) (hb : DecodesTo tok h2 c2) : h1 = h2 ∧ c1 = c2 := by
  obtain ⟨a, b, c, hp, hh, hc⟩ := ha
  obtain ⟨a2, b2, c3, hp2, hh2, hc2⟩ := hb
  rw [hp] at hp2
  simp only [Prod.mk.injEq, and_true] at hp2
  obtain ⟨rfl, rfl, rfl⟩ := hp2
  rw [hh] at hh2
  rw [hc] at hc2
  exact ⟨Option.some.inj hh2, Option.some.inj hc2⟩

theorem headerObject_injective (k1 k2 : GoString) (h : headerObject k1 = headerObject k2) :
    k1 = k2 := by
  simpa [headerObject] using h

/-! ## C3: issuing without the expired flag -/

/-- Claim C3, counterexample. A store whose active identifier is the single byte
`FF`, which is not valid UTF-8: `json.Marshal` writes it as the escape of
U+FFFD, so the header of the issued token decodes to the `kid` `EF BF BD`
and does not decode to `Active.KID`. -/
theorem C3_counterexample :
    ¬hasExpired [] ∧
    ∃ tok s, handleAuth sampleCrypto (Time.mk 0) 0 ⟨str "POST", str "/auth", []⟩
        { Active := { KID := [0xFF], ExpiresAt := Time.mk 100, Priv := some sampleKeyA },
          Expired := { KID := str "kid-B", ExpiresAt := Time.mk (-100),
                       Priv := some sampleKeyB } } = (okJSON (Body.token tok), s) ∧
      DecodesTo tok (headerObject [0xEF, 0xBF, 0xBD]) (claimsObject 0 300) ∧
      ∀ cl, ¬DecodesTo tok (headerObject [0xFF]) cl := by
  refine ⟨by decide, ?_⟩
  have h := auth_active_token sampleCrypto
    { Active := { KID := [0xFF], ExpiresAt := Time.mk 100, Priv := some sampleKeyA },
      Expired := { KID := str "kid-B", ExpiresAt := Time.mk (-100), Priv := some sampleKeyB } }
    (Time.mk 0) 0 ⟨str "POST", str "/auth", []⟩ (by decide)
    (sampleCrypto_no_error _ _ _ _ sampleKeyA rfl)
  have hc : coerce [(0xFF : Byte)] = [0xEF, 0xBF, 0xBD] := by decide
  have hu : (Time.mk 0).Unix = 0 := by decide
  simp only [hc, hu] at h
  obtain ⟨tok, s, h1, h2⟩ := h
  refine ⟨tok, s, h1, h2, ?_⟩
  intro cl hcl
  have := headerObject_injective _ _ (DecodesTo_unique tok _ _ _ _ h2 hcl).1
  revert this
  decide

/-- Claim C3, amended. For every key store whose active identifier is valid
UTF-8, every request whose parsed query has no `expired` parameter and every
current time `now` (no relation to the active key's own expiry is assumed),
when `IssueJWT` reports no error for the active key pair, `handleAuth` answers
200 with a token whose header decodes to `kid = Active.KID` and whose claims
decode to an `exp` strictly greater than `now` in whole seconds. -/
theorem C3_auth_active (c : Crypto) (ks : KeyStore) (now : Time) (signs : Nat) (r : Request)
    (hq : ¬hasExpired r.RawQuery) (hkid : ValidString ks.Active.KID = true)
    (hsig : (IssueJWT c now signs ks.Active false).1.2 = none) :
    ∃ tok s exp, handleAuth c now signs r ks = (okJSON (Body.token tok), s) ∧
      DecodesTo tok (headerObject ks.Active.KID) (claimsObject now.Unix exp) ∧
      now.Unix < exp := by
  obtain ⟨tok, s, h1, h2⟩ := auth_active_token c ks now signs r hq hsig
  rw [coerce_valid _ hkid] at h2
  exact ⟨tok, s, now.Unix + 300, h1, h2, by omega⟩

/-- Claim C3, witness. The sample store, asked at the instant 250 s, after the
active key's own expiry. -/
theorem C3_auth_active_witness :
    ∃ tok s exp, handleAuth sampleCrypto (Time.mk 250000000000) 0
        ⟨str "POST", str "/auth", str "a=1"⟩ sampleStore = (okJSON (Body.token tok), s) ∧
      DecodesTo tok (headerObject (str "kid-A")) (claimsObject 250 exp) ∧ 250 < exp :=
  C3_auth_active sampleCrypto sampleStore (Time.mk 250000000000) 0
    ⟨str "POST", str "/auth", str "a=1"⟩ (by decide) (by decide)
    (sampleCrypto_no_error _ _ _ _ sampleKeyA rfl)

/-! ## Facts about the query -/

theorem Cut_not_mem (sep : Byte) (s : GoString) (h : sep ∉ s) : Cut sep s = (s, [], false) := by
  induction s with
  | nil => rfl
  | cons b rest ih =>
    simp only [List.mem_cons, not_or] at h
    rw [Cut, if_neg (fun hb => h.1 hb.symm), ih h.2]

theorem Cut_append (sep : Byte) (s t : GoString) (h : sep ∉ s) :
    Cut sep (s ++ sep :: t) = (s, t, true) := by
  induction s with
  | nil => simp [Cut]
  | cons b rest ih =>
    simp only [List.mem_cons, not_or] at h
    have e : (b :: rest) ++ sep :: t = b :: (rest ++ sep :: t) := rfl
    rw [e, Cut, if_neg (fun hb => h.1 hb.symm), ih h.2]

theorem parseQuery_nil (fuel : Nat) (m : Values) : parseQuery fuel m [] = m := by
  cases fuel <;> simp [parseQuery]

theorem Query_expired_value (v : GoString) (h1 : (0x26 : Byte) ∉ v) (h2 : (0x3B : Byte) ∉ v) :
    Query (str "expired=" ++ v) =
      match QueryUnescape v with
      | some v1 => [(str "expired", [v1])]
      | none => [] := by
  have hs : str "expired=" ++ v = str "expired" ++ 0x3D :: v := by
    have : str "expired=" = str "expired" ++ [0x3D] := by decide
    rw [this, List.append_assoc]
    rfl
  have hamp : (0x26 : Byte) ∉ str "expired" ++ 0x3D :: v := by
    simp only [List.mem_append, List.mem_cons, not_or]
    exact ⟨by decide, by decide, h1⟩
  have hsemi : (0x3B : Byte) ∉ str "expired" ++ 0x3D :: v := by
    simp only [List.mem_append, List.mem_cons, not_or]
    exact ⟨by decide, by decide, h2⟩
  have hne : str "expired" ++ 0x3D :: v ≠ [] := by simp
  have hlen : (str "expired" ++ 0x3D :: v).length = (7 + v.length) + 1 := by
    simp only [List.length_append, List.length_cons]
    have : (str "expired").length = 7 := by decide
    omega
  have hkey : QueryUnescape (str "expired") = some (str "expired") := by decide
  rw [hs, Query, hlen, parseQuery, if_neg hne]
  simp only [Cut_not_mem _ _ hamp, if_neg hsemi, if_neg hne,
    Cut_append 0x3D (str "expired") v (by decide), hkey, parseQuery_nil]
  cases QueryUnescape v <;> rfl

theorem hasExpired_value (v : GoString) (h1 : (0x26 : Byte) ∉ v) (h2 : (0x3B : Byte) ∉ v) :
    hasExpired (str "expired=" ++ v) ↔ QueryUnescape v ≠ none := by
  rw [hasExpired, Query_expired_value v h1 h2]
  cases QueryUnescape v with
  | none => simp
  | some v1 =>
    have : List.lookup (str "expired") [(str "expired", [v1])] = some [v1] := by
      simp [List.lookup]
    simp [this]

/-! ## C4: issuing with the expired flag -/

/-- Claim C4, counterexample. The query string `expired=%zz` names the parameter
`expired` with a value that is not a well-formed percent-encoding:
`URL.Query()` discards the pair, so `handleAuth` selects the active key pair:
the header of the issued token decodes to `kid = Active.KID`, not to
`Expired.KID`, and its claims to `exp = 300`, after the current time 0. -/
theorem C4_counterexample :
    Query (str "expired=%zz") = [] ∧
    sampleStore.Active.KID ≠ sampleStore.Expired.KID ∧
    ∃ tok s, handleAuth sampleCrypto (Time.mk 0) 0
        ⟨str "POST", str "/auth", str "expired=%zz"⟩ sampleStore =
        (okJSON (Body.token tok), s) ∧
      DecodesTo tok (headerObject sampleStore.Active.KID) (claimsObject 0 300) ∧
      ∀ exp, ¬DecodesTo tok (headerObject sampleStore.Expired.KID) (claimsObject 0 exp) := by
  refine ⟨by decide, by decide, ?_⟩
  have h := auth_active_token sampleCrypto sampleStore (Time.mk 0) 0
    ⟨str "POST", str "/auth", str "expired=%zz"⟩ (by decide)
    (sampleCrypto_no_error _ _ _ _ sampleKeyA rfl)
  have hc : coerce sampleStore.Active.KID = sampleStore.Active.KID := by decide
  have hu : (Time.mk 0).Unix = 0 := by decide
  simp only [hc, hu] at h
  obtain ⟨tok, s, h1, h2⟩ := h
  refine ⟨tok, s, h1, h2, ?_⟩
  intro exp hcl
  have := headerObject_injective _ _ (DecodesTo_unique tok _ _ _ _ h2 hcl).1
  revert this
  decide

/-- Claim C4, amended. For every key store whose expired identifier is valid
UTF-8 and every request whose parsed query (`URL.Query()`, which discards
malformed pairs) has the key `expired`, whatever its values, when `IssueJWT`
reports no error for the expired key pair, `handleAuth` answers 200 with a
token whose header decodes to `kid = Expired.KID` and whose claims decode to an
`exp` strictly less than the current time in whole seconds. The key is present
for the query strings `expired`, `expired=` and `expired=true`, and for
`expired=v` with `v` free of `&` and `;` exactly when `v` unescapes, that is
when each `%` in it is followed by two hexadecimal digits. -/
theorem C4_auth_expired (c : Crypto) (ks : KeyStore) (now : Time) (signs : Nat) (r : Request)
    (hq : hasExpired r.RawQuery) (hkid : ValidString ks.Expired.KID = true)
    (hsig : (IssueJWT c now signs ks.Expired true).1.2 = none) :
    (∃ tok s exp, handleAuth c now signs r ks = (okJSON (Body.token tok), s) ∧
      DecodesTo tok (headerObject ks.Expired.KID) (claimsObject now.Unix exp) ∧
      exp < now.Unix) ∧
    hasExpired (str "expired") ∧ hasExpired (str "expired=") ∧ hasExpired (str "expired=true") ∧
    (∀ v : GoString, (0x26 : Byte) ∉ v → (0x3B : Byte) ∉ v →
      (hasExpired (str "expired=" ++ v) ↔ QueryUnescape v ≠ none)) := by
  refine ⟨?_, by decide, by decide, by decide, hasExpired_value⟩
  obtain ⟨tok, s, h1, h2⟩ := auth_expired_token c ks now signs r hq hsig
  rw [coerce_valid _ hkid] at h2
  exact ⟨tok, s, now.Unix - 300, h1, h2, by omega⟩

/-- Claim C4, witness. The sample store and the query string `expired=true`. -/
theorem C4_auth_expired_witness :
    ∃ tok s exp, handleAuth sampleCrypto (Time.mk 0) 0
        ⟨str "POST", str "/auth", str "expired=true"⟩ sampleStore =
        (okJSON (Body.token tok), s) ∧
      DecodesTo tok (headerObject (str "kid-B")) (claimsObject 0 exp) ∧ exp < 0 :=
  (C4_auth_expired sampleCrypto sampleStore (Time.mk 0) 0
    ⟨str "POST", str "/auth", str "expired=true"⟩ (by decide) (by decide)
    (sampleCrypto_no_error _ _ _ _ sampleKeyB rfl)).1

/-! ## C5: the shape of a token -/

theorem validLoop_ascii (fuel : Nat) (s : GoString) (hlen : s.length ≤ fuel)
    (h : ∀ b ∈ s, b.val < 0x80) : validLoop fuel s = true := by
  induction fuel generalizing s with
  | zero =>
    have hs : s = [] := List.length_eq_zero.mp (by omega)
    subst hs
    rfl
  | succ fuel ih =>
    rcases s with _ | ⟨b, rest⟩
    · rfl
    · simp only [List.length_cons] at hlen
      have hb := h b (List.mem_cons_self _ _)
      simp only [validLoop, DecodeRune_ascii b rest hb]
      have hne : ¬(b.val = RuneError) := by
        simp only [RuneError]
        omega
      simpa [hne] using ih rest (by omega) (fun x hx => h x (List.mem_cons_of_mem _ hx))

theorem ValidString_EncodeToString (bs : List Byte) : ValidString (EncodeToString bs) = true := by
  apply validLoop_ascii _ _ (Nat.le_refl _)
  intro b hb
  have := EncodeToString_alphabet bs b hb
  simp only [isBase64URL, decide_eq_true_eq] at this
  omega

theorem EncodeToString_injective (a b : List Byte) (h : EncodeToString a = EncodeToString b) :
    a = b := by
  have h1 := DecodeString_EncodeToString a
  rw [h, DecodeString_EncodeToString] at h1
  exact (Option.some.inj h1).symm

theorem newKID_injective (r1 r2 : Fin 16 → Byte) (h : newKID r1 = newKID r2) : r1 = r2 :=
  List.ofFn_injective (EncodeToString_injective _ _ h)

/-- Claim C8, counterexample. `NewKeyStore` with the same sixteen random bytes
(all zero) drawn for both identifiers: the two key pairs get the same `kid`, so
the header of a token issued in expired mode carries a `kid` that the discovery
response computed at the creation time does publish (as the active entry). -/
theorem C8_counterexample :
    ∃ ks tok s cl k,
      NewKeyStore (Except.ok ⟨3233, 17, 2753⟩) (Except.ok ⟨2773, 17, 157⟩) (Time.mk 0)
        (fun _ => 0) (fun _ => 0) = (some ks, none) ∧
      IssueJWT sampleCrypto (Time.mk 0) 0 ks.Expired true = ((tok, none), s) ∧
      DecodesTo tok (headerObject (str "AAAAAAAAAAAAAAAAAAAAAA")) cl ∧
      handleJWKS (Time.mk 0) ks = Outcome.response (okJSON (Body.jwks ⟨[k]⟩)) ∧
      k.KID = str "AAAAAAAAAAAAAAAAAAAAAA" := by
  obtain ⟨tok, s, hres⟩ := IssueJWT_ok_of_no_error sampleCrypto (Time.mk 0) 0
    { KID := newKID (fun _ => 0), ExpiresAt := (Time.mk 0).Add (-24 * Hour),
      Priv := some sampleKeyB } true (sampleCrypto_no_error _ _ _ _ sampleKeyB rfl)
  have hdec := IssueJWT_DecodesTo _ _ _ _ _ tok s hres
  have hk : newKID (fun _ => 0) = str "AAAAAAAAAAAAAAAAAAAAAA" := by decide
  have hc : coerce (str "AAAAAAAAAAAAAAAAAAAAAA") = str "AAAAAAAAAAAAAAAAAAAAAA" := by decide
  simp only [hk, hc] at hdec
  refine ⟨_, tok, s, _, rsaPublicToJWK (newKID (fun _ => 0)) 3233 17, rfl, hres, hdec, ?_, hk⟩
  decide

/-- Claim C8, amended. For every key store built by `NewKeyStore` at creation
time `t0` from two different draws of random bytes (`NewKeyStore` draws the two
identifiers independently and does not compare them) and every request time
`now ≥ t0`: the two identifiers differ, the header of every token issued in
expired mode (by `IssueJWT` with the expired key pair, at any time) decodes to
`kid = Expired.KID`, and `handleJWKS` at `now` answers with a list of entries
none of which has that `kid`. -/
theorem C8_expired_kid_unpublished (genActive genExpired : Except GoError GeneratedKey)
    (t0 now : Time) (rndActive rndExpired : Fin 16 → Byte) (ks : KeyStore)
    (hks : NewKeyStore genActive genExpired t0 rndActive rndExpired = (some ks, none))
    (hrnd : rndActive ≠ rndExpired) (h0 : t0.ns ≤ now.ns)
    (c : Crypto) (issuedAt : Time) (signs : Nat) (tok : GoString) (s : Nat)
    (htok : IssueJWT c issuedAt signs ks.Expired true = ((tok, none), s)) :
    ks.Active.KID ≠ ks.Expired.KID ∧
    (∃ cl, DecodesTo tok (headerObject ks.Expired.KID) cl) ∧
    ∃ keys, handleJWKS now ks = Outcome.response (okJSON (Body.jwks ⟨keys⟩)) ∧
      ∀ k ∈ keys, k.KID ≠ ks.Expired.KID := by
  have hdec := IssueJWT_DecodesTo c issuedAt signs ks.Expired true tok s htok
  rcases genActive with e | pa
  · simp [NewKeyStore] at hks
  · rcases genExpired with e | pe
    · simp [NewKeyStore] at hks
    · simp only [NewKeyStore, Prod.mk.injEq, Option.some.injEq, and_true] at hks
      subst hks
      have hkid : newKID rndActive ≠ newKID rndExpired :=
        fun h => hrnd (newKID_injective _ _ h)
      have hvalid : coerce (newKID rndExpired) = newKID rndExpired :=
        coerce_valid _ (ValidString_EncodeToString _)
      simp only [hvalid] at hdec
      refine ⟨hkid, ⟨_, hdec⟩, ?_⟩
      have hE : ¬(now.ns < t0.ns + -24 * Hour) := by
        simp only [Hour, Minute]
        omega
      by_cases hA : now.ns < t0.ns + 24 * Hour
      · refine ⟨[rsaPublicToJWK (newKID rndActive) pa.N pa.E], ?_, ?_⟩
        · simp only [handleJWKS, Time.Before, Time.Add, hA, hE, okJSON, decide_True,
            decide_False, if_true, if_false, List.nil_append, Bool.false_eq_true,
            GeneratedKey.toPrivateKey]
        · intro k hk
          simp only [List.mem_singleton] at hk
          subst hk
          exact hkid
      · refine ⟨[], ?_, by simp⟩
        simp only [handleJWKS, Time.Before, Time.Add, hA, hE, okJSON, decide_False,
          if_false, Bool.false_eq_true]

/-- Claim C8, witness. `NewKeyStore` at `t0 = 0` with the draws all-ones and
all-twos, discovery one second later, a token issued under the sample
primitives. -/
theorem C8_expired_kid_unpublished_witness :
    newKID (fun _ => 1) ≠ newKID (fun _ => 2) ∧
    (∃ cl, DecodesTo
      (IssueJWT sampleCrypto (Time.mk 0) 0
        { KID := newKID (fun _ => 2), ExpiresAt := (Time.mk 0).Add (-24 * Hour),
          Priv := some sampleKeyB } true).1.1
      (headerObject (newKID (fun _ => 2))) cl) ∧
    ∃ keys, handleJWKS (Time.mk 1000000000)
        { Active := { KID := newKID (fun _ => 1), ExpiresAt := (Time.mk 0).Add (24 * Hour),
                      Priv := some sampleKeyA },
          Expired := { KID := newKID (fun _ => 2), ExpiresAt := (Time.mk 0).Add (-24 * Hour),
                       Priv := some sampleKeyB } } =
        Outcome.response (okJSON (Body.jwks ⟨keys⟩)) ∧
      ∀ k ∈ keys, k.KID ≠ newKID (fun _ => 2) :=
  C8_expired_kid_unpublished (Except.ok ⟨3233, 17, 2753⟩) (Except.ok ⟨2773, 17, 157⟩) (Time.mk 0)
    (Time.mk 1000000000) (fun _ => 1) (fun _ => 2) _ rfl
    (fun h => absurd (congrFun h 0) (by decide)) (by decide) sampleCrypto (Time.mk 0) 0 _ 1 rfl

end JwksServer
